import Mathlib

/-!
# Verification of the oc-mirror publish subsystem

A shallow embedding of the publish pipeline of the oc-mirror tool
(`pkg/cli/mirror/publish.go` and `pkg/metadata/storage/registry.go`),
together with proofs of the specification's testable properties.

Go error values are modelled by the inductive `GoErr`.  External
collaborators (the tar archiver, the registry HTTP client, the reference
parser of the `oc` library) are modelled as oracle functions carried in a
`PubEnv` record; everything the repository's own code does with their
results is translated directly from the source.
-/

set_option maxHeartbeats 1000000

namespace OcMirror

/-- Go `error` values appearing in the publish subsystem.
`archiveFileNotFound` is `ErrArchiveFileNotFound` (publish.go),
`notExist` is `os.ErrNotExist`, `metadataNotExist` is
`storage.ErrMetadataNotExist`, `transport s` is a
`transport.Error` with the given HTTP status code and `msg` covers
any other library error. -/
inductive GoErr where
  | archiveFileNotFound (filename : String)
  | notExist
  | metadataNotExist
  | transport (status : Nat)
  | msg (s : String)
deriving DecidableEq, Repr

/-- `SequenceError` from publish.go: "invalid mirror sequence order,
want %v, got %v". -/
structure SequenceError where
  wantSeq : Int
  gotSeq : Int
deriving DecidableEq, Repr

/-- Image category (`v1alpha2.ImageType`). -/
inductive ImageType where
  | generic
  | release
  | operatorCatalog
  | additional
deriving DecidableEq, Repr

/-- `reference.DockerImageReference` of the openshift library: the five
components of an image reference. -/
structure DockerImageReference where
  Registry : String
  Namespace : String
  Name : String
  Tag : String
  ID : String
deriving DecidableEq, Repr

instance : Inhabited DockerImageReference :=
  ⟨{ Registry := "", Namespace := "", Name := "", Tag := "", ID := "" }⟩

/-- `imagesource` destination types used by publish.go. -/
inductive DestinationType where
  | registry
  | file
  | unknown
deriving DecidableEq, Repr

/-- `imagesource.TypedImageReference`: a docker reference plus its
destination type.  The Go field `Type` is a Lean keyword, hence `Type'`. -/
structure TypedImageReference where
  Ref : DockerImageReference
  Type' : DestinationType
deriving DecidableEq, Repr

instance : Inhabited TypedImageReference :=
  ⟨{ Ref := default, Type' := DestinationType.unknown }⟩

/-- `v1alpha2.Association`: per-image bookkeeping record.  The Go field
`Type` is a Lean keyword, hence `Type'`. -/
structure Association where
  Name : String
  Path : String
  TagSymlink : String
  ID : String
  Type' : ImageType
  ManifestDigests : List String
  LayerDigests : List String
deriving DecidableEq, Repr

/-- `v1alpha2.PastMirror`: the sequence number and associations of the
run that generated the archive. -/
structure PastMirror where
  Sequence : Int
  Associations : List Association
deriving DecidableEq, Repr

/-- `v1alpha2.Metadata`, restricted to the attributes the publish
subsystem reads: workspace identity, single-use flag, the incoming run
and the cumulative association history. -/
structure Metadata where
  Uid : String
  SingleUse : Bool
  PastMirror : PastMirror
  PastAssociations : List Association
deriving DecidableEq, Repr

instance : Inhabited Metadata :=
  ⟨{ Uid := "", SingleUse := false,
     PastMirror := { Sequence := 0, Associations := [] },
     PastAssociations := [] }⟩

/-- Go `filepath.Join` on two components, as used in publish.go: empty
components are skipped, non-empty ones joined with `/`.  (The `Clean`
normalization of the Go standard library is not needed for the paths the
code builds and is omitted.) -/
def pathJoin (a b : String) : String :=
  if a = "" then b else if b = "" then a else a ++ "/" ++ b

/-! ## Sequence guard (publish.go lines 144-164)

`Publish` switches on the result of `backend.ReadMetadata`: a non-sentinel
error is returned as-is; the `ErrMetadataNotExist` sentinel triggers the
first-run check `incoming.PastMirror.Sequence == 1`; otherwise the
incoming sequence must be the current sequence plus one. -/

/-- The possible outcomes of the guard stage of `Publish`. -/
inductive GuardResult where
  | ok
  | seqErr (e : SequenceError)
  | readErr (e : GoErr)
deriving DecidableEq, Repr

/-- The guard stage of `Publish`: `readErr` is the error returned by
`backend.ReadMetadata` (`none` when it succeeded filling `currentMeta`). -/
def sequenceGuard (readErr : Option GoErr) (currentMeta incomingMeta : Metadata) :
    GuardResult :=
  match readErr with
  | some e =>
    if e ≠ GoErr.metadataNotExist then
      GuardResult.readErr e
    else
      -- "No existing metadata found. Setting up new workspace"
      if incomingMeta.PastMirror.Sequence ≠ 1 then
        GuardResult.seqErr ⟨1, incomingMeta.PastMirror.Sequence⟩
      else
        GuardResult.ok
  | none =>
    if incomingMeta.PastMirror.Sequence ≠ currentMeta.PastMirror.Sequence + 1 then
      GuardResult.seqErr
        ⟨currentMeta.PastMirror.Sequence + 1, incomingMeta.PastMirror.Sequence⟩
    else
      GuardResult.ok

/-! ## Uid-keyed metadata location (publish.go lines 115-142)

In stateful mode `Publish` stores metadata in a registry image whose URL
is derived from the *incoming* metadata's Uid
(`metaImage := o.newMetadataImage(incomingMeta.Uid.String())`), so a
lineage with a different Uid lives at a different image URL and its
metadata is never found by `ReadMetadata`. -/

/-- Modelled from the spec: `newMetadataImage` (its definition is outside
the provided sources) derives the metadata image URL from the workspace
Uid, so distinct Uids name distinct metadata images. -/
def newMetadataImage (uid : String) : String :=
  "oc-mirror:" ++ uid

/-- The registry-image metadata store: a map from metadata image URL to
the stored metadata record. -/
def MetaStore := List (String × Metadata)

/-- Look up a key in an association list of stores. -/
def storeLookup (s : MetaStore) (k : String) : Option Metadata :=
  match s with
  | [] => none
  | (k', m) :: rest => if k' = k then some m else storeLookup rest k

/-- `backend.ReadMetadata` for the stateful (registry) backend: read at
the image URL derived from the incoming Uid; absence is the
`ErrMetadataNotExist` sentinel and leaves `currentMeta` zero-valued. -/
def readCurrentMetadata (store : MetaStore) (incoming : Metadata) :
    Option GoErr × Metadata :=
  match storeLookup store (newMetadataImage incoming.Uid) with
  | some m => (none, m)
  | none => (some GoErr.metadataNotExist, default)

/-- The guard stage of `Publish` in stateful mode: read the current
metadata at the Uid-derived location, then run the sequence guard. -/
def publishGuardStateful (store : MetaStore) (incoming : Metadata) : GuardResult :=
  let r := readCurrentMetadata store incoming
  sequenceGuard r.1 r.2 incoming

/-- A store holding exactly one lineage's metadata, at its Uid-derived
image URL. -/
def storeOf (current : Metadata) : MetaStore :=
  [(newMetadataImage current.Uid, current)]

/-! ## Registry backend existence check (registry.go lines 201-228) -/

/-- Result of `crane.Manifest` in `registryBackend.exists`: success, a
`transport.Error` with a status code, or any other error. -/
inductive ManifestResult where
  | ok
  | transportErr (status : Nat)
  | otherErr (e : GoErr)
deriving DecidableEq, Repr

/-- `registryBackend.exists`: 404 means the metadata image does not
exist; on 401 the backend re-parses its own reference
(`name.ParseReference`, result `parseRefRes`) and checks push permission
(`remote.CheckPushPermission`, result `pushCheck`); a clean push check
also means "does not exist yet".  Every other error is returned as-is;
a successful manifest fetch returns no error (default branch). -/
def existsCheck (manifest : ManifestResult) (parseRefRes : Option GoErr)
    (pushCheck : Option GoErr) : Option GoErr :=
  match manifest with
  | ManifestResult.transportErr s =>
    if s = 404 then some GoErr.metadataNotExist
    else if s = 401 then
      match parseRefRes with
      | some e => some e
      | none =>
        match pushCheck with
        | some e => some e
        | none => some GoErr.metadataNotExist
    else some (GoErr.transport s)
  | ManifestResult.otherErr e => some e
  | ManifestResult.ok => none

/-! ## Serialized metadata (C2 Metadata Store)

`json.Marshal`/`json.Unmarshal` of the Go standard library are modelled
by a concrete token-level encoder and a matching decoder over the
`Metadata` record.  A serialized file is a `Bytes` value. -/

/-- A serialized token: a length/tag number or a character. -/
inductive Tok where
  | nat (n : Nat)
  | ch (c : Char)
deriving DecidableEq, Repr

/-- Serialized file contents. -/
abbrev Bytes := List Tok

/-- Encode a string: length prefix followed by its characters. -/
def encStr (s : String) : Bytes :=
  Tok.nat s.data.length :: s.data.map Tok.ch

/-- Decode `n` character tokens. -/
def decChars : Nat → Bytes → Option (List Char × Bytes)
  | 0, bs => some ([], bs)
  | n + 1, Tok.ch c :: bs =>
    (decChars n bs).map (fun p => (c :: p.1, p.2))
  | _ + 1, _ => none

/-- Decode a length-prefixed string. -/
def decStr (bs : Bytes) : Option (String × Bytes) :=
  match bs with
  | Tok.nat n :: rest => (decChars n rest).map (fun p => (String.mk p.1, p.2))
  | _ => none

/-- Encode a boolean as a 0/1 token. -/
def encBool (b : Bool) : Bytes :=
  [Tok.nat (cond b 1 0)]

/-- Decode a boolean. -/
def decBool (bs : Bytes) : Option (Bool × Bytes) :=
  match bs with
  | Tok.nat 0 :: rest => some (false, rest)
  | Tok.nat 1 :: rest => some (true, rest)
  | _ => none

/-- Encode an integer as sign tag plus magnitude. -/
def encInt (i : Int) : Bytes :=
  match i with
  | Int.ofNat n => [Tok.nat 0, Tok.nat n]
  | Int.negSucc n => [Tok.nat 1, Tok.nat n]

/-- Decode an integer. -/
def decInt (bs : Bytes) : Option (Int × Bytes) :=
  match bs with
  | Tok.nat 0 :: Tok.nat n :: rest => some (Int.ofNat n, rest)
  | Tok.nat 1 :: Tok.nat n :: rest => some (Int.negSucc n, rest)
  | _ => none

/-- Encode an image type as a tag token. -/
def encImageType (t : ImageType) : Bytes :=
  match t with
  | ImageType.generic => [Tok.nat 0]
  | ImageType.release => [Tok.nat 1]
  | ImageType.operatorCatalog => [Tok.nat 2]
  | ImageType.additional => [Tok.nat 3]

/-- Decode an image type. -/
def decImageType (bs : Bytes) : Option (ImageType × Bytes) :=
  match bs with
  | Tok.nat 0 :: rest => some (ImageType.generic, rest)
  | Tok.nat 1 :: rest => some (ImageType.release, rest)
  | Tok.nat 2 :: rest => some (ImageType.operatorCatalog, rest)
  | Tok.nat 3 :: rest => some (ImageType.additional, rest)
  | _ => none

/-- Encode a list: length prefix, then the encoded elements. -/
def encListE (f : α → Bytes) (xs : List α) : Bytes :=
  Tok.nat xs.length :: (xs.map f).flatten

/-- Decode `n` consecutive elements. -/
def decListN (g : Bytes → Option (α × Bytes)) : Nat → Bytes → Option (List α × Bytes)
  | 0, bs => some ([], bs)
  | n + 1, bs =>
    (g bs).bind fun p =>
      (decListN g n p.2).map fun q => (p.1 :: q.1, q.2)

/-- Decode a length-prefixed list. -/
def decListE (g : Bytes → Option (α × Bytes)) (bs : Bytes) :
    Option (List α × Bytes) :=
  match bs with
  | Tok.nat n :: rest => decListN g n rest
  | _ => none

/-- Encode one association. -/
def encAssociation (a : Association) : Bytes :=
  encStr a.Name ++ encStr a.Path ++ encStr a.TagSymlink ++ encStr a.ID ++
    encImageType a.Type' ++ encListE encStr a.ManifestDigests ++
    encListE encStr a.LayerDigests

/-- Decode one association. -/
def decAssociation (bs : Bytes) : Option (Association × Bytes) :=
  (decStr bs).bind fun n =>
  (decStr n.2).bind fun p =>
  (decStr p.2).bind fun t =>
  (decStr t.2).bind fun i =>
  (decImageType i.2).bind fun y =>
  (decListE decStr y.2).bind fun md =>
  (decListE decStr md.2).map fun ld =>
  ({ Name := n.1, Path := p.1, TagSymlink := t.1, ID := i.1, Type' := y.1,
     ManifestDigests := md.1, LayerDigests := ld.1 }, ld.2)

/-- Encode a full metadata record. -/
def encMetadata (m : Metadata) : Bytes :=
  encStr m.Uid ++ encBool m.SingleUse ++ encInt m.PastMirror.Sequence ++
    encListE encAssociation m.PastMirror.Associations ++
    encListE encAssociation m.PastAssociations

/-- Decode a full metadata record. -/
def decMetadata (bs : Bytes) : Option (Metadata × Bytes) :=
  (decStr bs).bind fun u =>
  (decBool u.2).bind fun su =>
  (decInt su.2).bind fun sq =>
  (decListE decAssociation sq.2).bind fun pa =>
  (decListE decAssociation pa.2).map fun qa =>
  ({ Uid := u.1, SingleUse := su.1,
     PastMirror := { Sequence := sq.1, Associations := pa.1 },
     PastAssociations := qa.1 }, qa.2)

/-- Decode a whole metadata file: the record must consume all the bytes. -/
def decMetadataFull (bs : Bytes) : Option Metadata :=
  match decMetadata bs with
  | some (m, []) => some m
  | _ => none

/-! ## Metadata store backends (C2)

The local-directory backend is modelled from the spec; the registry
backend (`pkg/metadata/storage/registry.go`) composes it. -/

/-- A local directory's files: path to serialized contents. -/
def LocalFS := List (String × Bytes)

/-- Look up a file in a local directory. -/
def lfsLookup (fs : LocalFS) (p : String) : Option Bytes :=
  match fs with
  | [] => none
  | (q, c) :: rest => if q = p then some c else lfsLookup rest p

/-- Write (create or overwrite) a file in a local directory. -/
def lfsWrite (fs : LocalFS) (p : String) (c : Bytes) : LocalFS :=
  (p, c) :: (fs : List (String × Bytes)).filter (fun e => e.1 ≠ p)

/-- Remove a file from a local directory. -/
def lfsRemove (fs : LocalFS) (p : String) : LocalFS :=
  (fs : List (String × Bytes)).filter (fun e => e.1 ≠ p)

/-- Modelled from the spec: the local-directory backend (its source file
is outside the provided sources).  "Rooted at a directory; paths are
file paths; ReadMetadata is JSON-decode of a file; ErrMetadataNotExist
maps to the file-does-not-exist condition." -/
structure localDirBackend where
  dir : String
  fs : LocalFS

/-- Modelled from the spec: local `WriteObject` serializes the value and
writes the file under the backend's root directory. -/
def localWriteMetadata (b : localDirBackend) (meta : Metadata) (path : String) :
    localDirBackend :=
  { b with fs := lfsWrite b.fs (pathJoin b.dir path) (encMetadata meta) }

/-- Modelled from the spec: local `ReadMetadata` decodes the file at the
path under the backend's root; a missing file is `ErrMetadataNotExist`. -/
def localReadMetadata (b : localDirBackend) (path : String) :
    Except GoErr Metadata :=
  match lfsLookup b.fs (pathJoin b.dir path) with
  | none => Except.error GoErr.metadataNotExist
  | some bs =>
    match decMetadataFull bs with
    | some m => Except.ok m
    | none => Except.error (GoErr.msg "error unmarshalling metadata")

/-- A single-file container image as built by `crane.Image(contents)`:
the map from file path to file contents. -/
def ImageContents := List (String × Bytes)

/-- The state of a registry metadata backend: the wrapped local backend
plus the remote registry's images keyed by exact image reference. -/
structure RegistryState where
  localB : localDirBackend
  images : List (String × ImageContents)

/-- Look up an image in the registry. -/
def imgLookup (xs : List (String × ImageContents)) (k : String) :
    Option ImageContents :=
  match xs with
  | [] => none
  | (k', v) :: rest => if k' = k then some v else imgLookup rest k

/-- Push (create or replace) an image in the registry. -/
def imgPush (xs : List (String × ImageContents)) (k : String) (v : ImageContents) :
    List (String × ImageContents) :=
  (k, v) :: xs.filter (fun e => e.1 ≠ k)

/-- `ref.Exact()` of the openshift reference library: the fully
qualified rendering of a reference, used only as the registry key. -/
def refExact (r : DockerImageReference) : String :=
  r.Registry ++ "/" ++ r.Namespace ++ "/" ++ r.Name ++ ":" ++ r.Tag ++ "@" ++ r.ID

/-- Encode one tar entry: its path and length-prefixed contents. -/
def tarEntryEnc (e : String × Bytes) : Bytes :=
  encStr e.1 ++ Tok.nat e.2.length :: e.2

/-- Decode one tar entry. -/
def tarEntryDec (bs : Bytes) : Option ((String × Bytes) × Bytes) :=
  (decStr bs).bind fun p =>
    match p.2 with
    | Tok.nat n :: rest =>
      if _h : n ≤ rest.length then some ((p.1, rest.take n), rest.drop n) else none
    | _ => none

/-- Encode an image's file map into tar-archive bytes
(`crane.Export` writing into the temp tar file). -/
def tarOfContents (m : ImageContents) : Bytes :=
  encListE tarEntryEnc m

/-- Decode tar-archive bytes back into a file map
(`archiver.Tar.Unarchive` reading the temp tar file). -/
def contentsOfTar (bs : Bytes) : Option ImageContents :=
  (decListE tarEntryDec bs).bind fun r =>
    match r.2 with
    | [] => some r.1
    | _ => none

/-- `registryBackend.WriteMetadata` (registry.go lines 79-113): marshal
the record, write it through the local backend, then build a
single-file image holding just the metadata file and push it at the
backend's exact source reference. -/
def registryWriteMetadata (src : TypedImageReference) (st : RegistryState)
    (meta : Metadata) (path : String) : RegistryState :=
  let data := encMetadata meta
  { localB := localWriteMetadata st.localB meta path,
    images := imgPush st.images (refExact src.Ref) [(path, data)] }

/-- `registryBackend.unpack` (registry.go lines 134-161): pull the
metadata image, export its filesystem into a temp tar under the local
dir, untar it into the local dir (overwriting), and remove the temp tar
(the deferred `fs.Remove`). -/
def registryUnpack (src : TypedImageReference) (st : RegistryState) :
    Except GoErr RegistryState :=
  let tempTar := src.Ref.Name ++ ".tar"
  match imgLookup st.images (refExact src.Ref) with
  | none => Except.error (GoErr.msg "pull: image not found")
  | some contents =>
    let fs1 := lfsWrite st.localB.fs (pathJoin st.localB.dir tempTar) (tarOfContents contents)
    match contentsOfTar (tarOfContents contents) with
    | none => Except.error (GoErr.msg "unarchive: corrupt tar")
    | some files =>
      let fs2 := files.foldl (fun fs e => lfsWrite fs (pathJoin st.localB.dir e.1) e.2) fs1
      let fs3 := lfsRemove fs2 (pathJoin st.localB.dir tempTar)
      Except.ok { st with localB := { st.localB with fs := fs3 } }

/-- The manifest-fetch outcome of the self-contained store model: in the
round-trip setting the remote manifest exists exactly when the image has
been pushed to the store. -/
def storeManifest (src : TypedImageReference) (st : RegistryState) : ManifestResult :=
  match imgLookup st.images (refExact src.Ref) with
  | some _ => ManifestResult.ok
  | none => ManifestResult.transportErr 404

/-- `registryBackend.ReadMetadata` (registry.go lines 65-76): check the
image exists, unpack it into the local dir, then read through the local
backend. -/
def registryReadMetadata (src : TypedImageReference) (st : RegistryState)
    (path : String) : Except GoErr Metadata :=
  match existsCheck (storeManifest src st) none none with
  | some e => Except.error e
  | none =>
    match registryUnpack src st with
    | Except.error e => Except.error e
    | Except.ok st' => localReadMetadata st'.localB path

/-! ## The publish workspace and per-image loop (publish.go lines 190-333)

The run's temporary workspace is a flat map from file path to contents.
`fsWriteTrunc` models extraction by the archiver (which overwrites);
`fsWriteNoTrunc` models `copyBlobFile`, which opens with
`O_CREATE|O_WRONLY` and no `O_TRUNC`, so writing from offset zero leaves
any longer old tail in place. -/

/-- The publish workspace's files: path to contents. -/
abbrev FS := List (String × String)

/-- Look up a file in the workspace. -/
def fsLookup (fs : FS) (p : String) : Option String :=
  match fs with
  | [] => none
  | (q, c) :: rest => if q = p then some c else fsLookup rest p

/-- Write a file, truncating any previous contents. -/
def fsWriteTrunc (fs : FS) (p c : String) : FS :=
  (p, c) :: fs.filter (fun e => e.1 ≠ p)

/-- Write a file from offset zero without truncating: a longer old tail
survives (`copyBlobFile`'s `O_CREATE|O_WRONLY` without `O_TRUNC`). -/
def fsWriteNoTrunc (fs : FS) (p c : String) : FS :=
  match fsLookup fs p with
  | some old => fsWriteTrunc fs p (c ++ old.drop c.length)
  | none => fsWriteTrunc fs p c

/-- Remove every file under a directory (`os.RemoveAll` on the per-image
temp dir). -/
def fsRemoveUnder (fs : FS) (dir : String) : FS :=
  fs.filter (fun e => !(List.isPrefixOf dir.data e.1.data))

/-- Per-image errors accumulated by the loop, one constructor per
`errs = append(errs, …)` site of publish.go, plus the two append sites
inside `fetchBlobs`. -/
inductive PubErr where
  | missingManifestAssoc (image manifest : String)
  | statAccess (image manifest : String) (e : GoErr)
  | unpackChild (e : GoErr)
  | unpackMain (e : GoErr)
  | blobAccess (image layer blobPath : String) (e : GoErr)
  | parseSource (path : String) (e : GoErr)
  | unpackSymlink (e : GoErr)
  | parseTop (e : GoErr)
  | findRemoteLayer (layer : String) (e : GoErr)
  | fetchLayer (layer : String) (e : GoErr)
  | publishImageErr (e : GoErr)
deriving DecidableEq, Repr

/-- `image.TypedImage` (embedded typed reference plus category). -/
structure TypedImage where
  TIRef : TypedImageReference
  Category : ImageType
deriving DecidableEq, Repr

/-- `image.TypedImageMapping`: the coordinator's source-to-destination
mapping, keyed by the typed source reference. -/
abbrev TypedImageMapping := List (TypedImage × TypedImage)

/-- Look up the destination recorded for a typed source reference. -/
def tmLookup (m : TypedImageMapping) (k : TypedImage) : Option TypedImage :=
  match m with
  | [] => none
  | e :: rest => if e.1 = k then some e.2 else tmLookup rest k

/-- Modelled from the spec: `TypedImageMapping.Add` (its source file is
outside the provided sources) records a source-to-destination mapping
tagged with the image type, keyed by the typed source reference. -/
def tmAdd (m : TypedImageMapping) (src dst : TypedImageReference)
    (typ : ImageType) : TypedImageMapping :=
  (⟨src, typ⟩, ⟨dst, typ⟩) :: m.filter (fun e => e.1 ≠ ⟨src, typ⟩)

/-- Modelled from the spec: `TypedImageMapping.Merge` (its source file is
outside the provided sources) folds another mapping's entries in. -/
def tmMerge (m extra : TypedImageMapping) : TypedImageMapping :=
  extra.foldl (fun acc e => e :: acc.filter (fun x => x.1 ≠ e.1)) m

/-- `imgmirror.Mapping` of the `oc` mirror library. -/
structure MirrorMapping where
  Name : String
  Source : TypedImageReference
  Destination : TypedImageReference
deriving DecidableEq, Repr

/-- The environment of a publish run: configuration read from
`MirrorOptions` plus oracles for the external collaborators (archiver
extraction, `os.Stat`, reference parsing, registry blob reads, the
mirror library, and the stages following the loop). -/
structure PubEnv where
  filesInArchive : String → Option String
  extract : String → String → String → Except GoErr (Option String)
  statCwd : String → Option GoErr
  parseRef : String → TypedImageReference × Option GoErr
  toMirrorRef : TypedImageReference
  ToMirror : String
  UserNamespace : String
  currentMeta : Metadata
  openBlob : DockerImageReference → String → Except GoErr String
  publishImageFn : List MirrorMapping → String → Option GoErr
  SkipCleanup : Bool
  tmpdir : String
  unpackReleaseSignaturesRes : Option GoErr
  processCustomImagesRes : Except GoErr TypedImageMapping
  writeMetadataErr : Option GoErr

/-- `unpack` (publish.go lines 497-509): find the owning tar in the
archive index, extract the entry into `dest`, and `os.Stat` the
extracted file.  `extract` returning `ok none` is the case where the
archiver reported success but produced no file, so the stat fails with
`os.ErrNotExist`. -/
def unpack (env : PubEnv) (archiveFilePath dest : String) (fs : FS) :
    Except GoErr FS :=
  match env.filesInArchive archiveFilePath with
  | none => Except.error (GoErr.archiveFileNotFound archiveFilePath)
  | some archivePath =>
    match env.extract archivePath archiveFilePath dest with
    | Except.error e => Except.error e
    | Except.ok none => Except.error GoErr.notExist
    | Except.ok (some c) =>
      Except.ok (fsWriteTrunc fs (pathJoin dest archiveFilePath) c)

/-- The error test of publish.go line 248:
`errors.Is(err, os.ErrNotExist) || errors.As(err, &aerr)`. -/
def isNotFoundErr : GoErr → Bool
  | GoErr.archiveFileNotFound _ => true
  | GoErr.notExist => true
  | _ => false

/-- `missingLayers`: remote layer digest to the destination paths it
must be fetched to, in insertion order. -/
abbrev MissingLayers := List (String × List String)

/-- The paths recorded for a digest. -/
def mlPaths (m : MissingLayers) (k : String) : List String :=
  match m with
  | [] => []
  | (k', vs) :: rest => if k' = k then vs else mlPaths rest k

/-- `missingLayers[layerDigest] = append(missingLayers[layerDigest], path)`. -/
def mlInsert (m : MissingLayers) (k v : String) : MissingLayers :=
  match m with
  | [] => [(k, [v])]
  | (k', vs) :: rest =>
    if k' = k then (k', vs ++ [v]) :: rest else (k', vs) :: mlInsert rest k v

/-- The layer loop (publish.go lines 238-255): try to extract each layer
blob next to the manifests; a not-found outcome records the layer in
`missingLayers`; any other error is accumulated and the image
continues with the next layer. -/
def processLayers (env : PubEnv) (imageName unpackDir assocPath : String) :
    List String → FS → List PubErr → MissingLayers →
    FS × List PubErr × MissingLayers
  | [], fs, errs, missing => (fs, errs, missing)
  | L :: rest, fs, errs, missing =>
    let blobPath := pathJoin "blobs" L
    let imagePath := pathJoin unpackDir (pathJoin "v2" assocPath)
    let imageBlobPath := pathJoin imagePath blobPath
    match unpack env blobPath imagePath fs with
    | Except.ok fs' =>
      processLayers env imageName unpackDir assocPath rest fs' errs missing
    | Except.error e =>
      if isNotFoundErr e then
        processLayers env imageName unpackDir assocPath rest fs errs
          (mlInsert missing L imageBlobPath)
      else
        processLayers env imageName unpackDir assocPath rest fs
          (errs ++ [PubErr.blobAccess imageName L blobPath e]) missing

/-- Modelled from the spec: `ConvertToAssociationSet` composed with
`GetImageFromBlob` (both outside the provided sources) locate the source
image reference owning a layer: the first association whose
`LayerDigests` contains the digest wins; the empty string means none. -/
def GetImageFromBlob (assocs : List Association) (layerDigest : String) : String :=
  match assocs.find? (fun a => a.LayerDigests.contains layerDigest) with
  | some a => a.Name
  | none => ""

/-- `findBlobRepo` (publish.go lines 562-574): look up the owning source
reference in the prior cumulative associations, then rewrite it to point
at the destination registry under the user namespace.  The Go function
returns the (possibly zero-valued) reference together with the error. -/
def findBlobRepo (env : PubEnv) (assocs : List Association) (layerDigest : String) :
    TypedImageReference × Option GoErr :=
  let srcRef := GetImageFromBlob assocs layerDigest
  if srcRef = "" then
    (default,
     some (GoErr.msg ("layer " ++ layerDigest ++ " is not present in previous metadata")))
  else
    let pr := env.parseRef srcRef
    ({ pr.1 with Ref := { pr.1.Ref with
        Registry := env.ToMirror
        Namespace := pathJoin env.UserNamespace pr.1.Ref.Namespace } }, pr.2)

/-- `copyBlobFile` (publish.go lines 419-436): write the blob stream into
the destination file, which is opened without truncation. -/
def copyBlobFile (src dstPath : String) (fs : FS) : FS :=
  fsWriteNoTrunc fs dstPath src

/-- `fetchBlob` (publish.go lines 466-495): open the blob at the rewritten
reference and copy the stream into every destination path, seeking back
to the start between copies.  Repository/digest/open failures are the
oracle's error. -/
def fetchBlob (env : PubEnv) (ref : DockerImageReference) (layerDigest : String)
    (dstPaths : List String) (fs : FS) : Except GoErr FS :=
  match env.openBlob ref layerDigest with
  | Except.error e => Except.error e
  | Except.ok content =>
    Except.ok (dstPaths.foldl (fun f p => copyBlobFile content p f) fs)

/-- The outcome of `fetchBlobs`: the workspace after the copies, the
accumulated errors (aggregated by the caller), and the trace of
references `fetchBlob` was invoked with. -/
structure FetchBlobsResult where
  fs : FS
  errs : List PubErr
  calls : List DockerImageReference
deriving DecidableEq, Repr

/-- One iteration of the `fetchBlobs` loop (publish.go lines 450-459): a
failed source lookup records its error but does not skip the layer —
`fetchBlob` is still invoked with the (zero-valued) reference the lookup
returned. -/
def fetchBlobsStep (env : PubEnv) (assocs : List Association)
    (acc : FetchBlobsResult) (x : String × List String) : FetchBlobsResult :=
  let fr := findBlobRepo env assocs x.1
  let errs1 :=
    match fr.2 with
    | some e => acc.errs ++ [PubErr.findRemoteLayer x.1 e]
    | none => acc.errs
  let calls1 := acc.calls ++ [fr.1.Ref]
  match fetchBlob env fr.1.Ref x.1 x.2 acc.fs with
  | Except.error e =>
    { fs := acc.fs, errs := errs1 ++ [PubErr.fetchLayer x.1 e], calls := calls1 }
  | Except.ok fs' => { fs := fs', errs := errs1, calls := calls1 }

/-- The loop of `fetchBlobs` over the missing-layer map. -/
def fetchBlobsGo (env : PubEnv) (assocs : List Association) :
    MissingLayers → FetchBlobsResult → FetchBlobsResult
  | [], acc => acc
  | x :: rest, acc => fetchBlobsGo env assocs rest (fetchBlobsStep env assocs acc x)

/-- `fetchBlobs` (publish.go lines 438-462): iterate the missing layers
over the prior metadata's cumulative associations.  The caller treats a
non-empty error list as the non-nil aggregate. -/
def fetchBlobs (env : PubEnv) (meta : Metadata) (missingLayers : MissingLayers)
    (fs : FS) : FetchBlobsResult :=
  fetchBlobsGo env meta.PastAssociations missingLayers
    { fs := fs, errs := [], calls := [] }

/-- The accumulated state of the per-image loop. -/
structure ImgState where
  fs : FS
  errs : List PubErr
  mmapping : List MirrorMapping
  allMappings : TypedImageMapping
  fetchCalls : List DockerImageReference
deriving DecidableEq, Repr

/-- `AssociationSet.ContainsKey` restricted to one image group: is there
an association stored under this key. -/
def containsKey (group : List (String × Association)) (k : String) : Bool :=
  group.any (fun e => e.1 = k)

/-- Child-manifest extraction (publish.go lines 212-230): each child
digest must be a member of the group; a child already on disk is kept,
a missing one is extracted, and stat or extraction failures are
accumulated. -/
def childManifests (env : PubEnv) (imageName unpackDir manifestPath : String)
    (group : List (String × Association)) :
    List String → FS → List PubErr → FS × List PubErr
  | [], fs, errs => (fs, errs)
  | md :: rest, fs, errs =>
    if ¬ containsKey group md then
      childManifests env imageName unpackDir manifestPath group rest fs
        (errs ++ [PubErr.missingManifestAssoc imageName md])
    else
      let manifestArchivePath := pathJoin manifestPath md
      match env.statCwd manifestArchivePath with
      | none => childManifests env imageName unpackDir manifestPath group rest fs errs
      | some e =>
        if e = GoErr.notExist then
          match unpack env manifestArchivePath unpackDir fs with
          | Except.ok fs' =>
            childManifests env imageName unpackDir manifestPath group rest fs' errs
          | Except.error e' =>
            childManifests env imageName unpackDir manifestPath group rest fs
              (errs ++ [PubErr.unpackChild e'])
        else
          childManifests env imageName unpackDir manifestPath group rest fs
            (errs ++ [PubErr.statAccess imageName md e])

/-- The destination of a mapping (publish.go lines 272-276): the parsed
mirror reference with the source's name, tag and id and the namespace
prefixed by the user namespace. -/
def assocDest (env : PubEnv) (src : TypedImageReference) : TypedImageReference :=
  { env.toMirrorRef with Ref := { env.toMirrorRef.Ref with
      Name := src.Ref.Name, Tag := src.Ref.Tag, ID := src.Ref.ID,
      Namespace := pathJoin env.UserNamespace src.Ref.Namespace } }

/-- End of the association body (publish.go lines 291-296): when layers
are missing, fetch them all; a non-nil aggregate from `fetchBlobs`
returns from `Publish` immediately (the `Except.error` case, carrying
the state at that point and the aggregated errors). -/
def processAssocFinish (env : PubEnv) (st : ImgState) (errs3 : List PubErr)
    (missing : MissingLayers) (fs4 : FS) (allM : TypedImageMapping)
    (mm : List MirrorMapping) : Except (ImgState × List PubErr) ImgState :=
  if missing ≠ [] then
    if (fetchBlobs env env.currentMeta missing fs4).errs ≠ [] then
      Except.error ({ fs := (fetchBlobs env env.currentMeta missing fs4).fs
                      errs := errs3
                      mmapping := mm
                      allMappings := allM
                      fetchCalls := st.fetchCalls
                        ++ (fetchBlobs env env.currentMeta missing fs4).calls },
        (fetchBlobs env env.currentMeta missing fs4).errs)
    else
      Except.ok { fs := (fetchBlobs env env.currentMeta missing fs4).fs
                  errs := errs3
                  mmapping := mm
                  allMappings := allM
                  fetchCalls := st.fetchCalls
                    ++ (fetchBlobs env env.currentMeta missing fs4).calls }
  else
    Except.ok { fs := fs4
                errs := errs3
                mmapping := mm
                allMappings := allM
                fetchCalls := st.fetchCalls }

/-- Mapping formation for one association (publish.go lines 257-296,
after the source reference parsed): record the mirror mapping; a
top-level association (name equal to the group key) additionally parses
the original remote reference and records it in `allMappings` (a parse
failure accumulates and skips the rest of the body). -/
def processAssocMap (env : PubEnv) (imageName : String) (st : ImgState)
    (assoc : Association) (errs3 : List PubErr) (missing : MissingLayers)
    (fs4 : FS) (src : TypedImageReference) :
    Except (ImgState × List PubErr) ImgState :=
  let dest := assocDest env src
  let mm := st.mmapping ++ [{ Name := assoc.Name, Source := src, Destination := dest }]
  if assoc.Name = imageName then
    let tp := env.parseRef imageName
    match tp.2 with
    | some e =>
      Except.ok { st with
        fs := fs4
        errs := errs3 ++ [PubErr.parseTop e]
        mmapping := mm }
    | none =>
      processAssocFinish env st errs3 missing fs4
        (tmAdd st.allMappings tp.1 dest assoc.Type') mm
  else
    processAssocFinish env st errs3 missing fs4 st.allMappings mm

/-- The child-manifest stage of one association's body: run only when
the association is an index (has `ManifestDigests`). -/
def assocChildStep (env : PubEnv) (imageName unpackDir manifestPath : String)
    (group : List (String × Association)) (a : Association)
    (fs : FS) (errs : List PubErr) : FS × List PubErr :=
  if a.ManifestDigests ≠ [] then
    childManifests env imageName unpackDir manifestPath group a.ManifestDigests fs errs
  else (fs, errs)

/-- One association's body in the per-image loop (publish.go lines
204-297): child manifests, the association's own manifest, the layer
loop, source parsing, the optional tag symlink, mapping formation and
the missing-layer fetch. -/
def processAssoc (env : PubEnv) (imageName unpackDir : String)
    (group : List (String × Association)) (st : ImgState) (assoc : Association) :
    Except (ImgState × List PubErr) ImgState :=
  let manifestPath := pathJoin (pathJoin "v2" assoc.Path) "manifests"
  let step1 := assocChildStep env imageName unpackDir manifestPath group assoc
    st.fs st.errs
  match unpack env (pathJoin manifestPath assoc.ID) unpackDir step1.1 with
  | Except.error e =>
    Except.ok { st with fs := step1.1, errs := step1.2 ++ [PubErr.unpackMain e] }
  | Except.ok fs2 =>
    let lr := processLayers env imageName unpackDir assoc.Path assoc.LayerDigests
      fs2 step1.2 []
    let ps := env.parseRef ("file://" ++ assoc.Path)
    match ps.2 with
    | some e =>
      Except.ok { st with
        fs := lr.1
        errs := lr.2.1 ++ [PubErr.parseSource assoc.Path e] }
    | none =>
      if assoc.TagSymlink ≠ "" then
        match unpack env (pathJoin manifestPath assoc.TagSymlink) unpackDir lr.1 with
        | Except.error e =>
          Except.ok { st with
            fs := lr.1
            errs := lr.2.1 ++ [PubErr.unpackSymlink e] }
        | Except.ok fs4 =>
          processAssocMap env imageName st assoc lr.2.1 lr.2.2 fs4
            { ps.1 with Ref := { ps.1.Ref with Tag := assoc.TagSymlink, ID := assoc.ID } }
      else
        processAssocMap env imageName st assoc lr.2.1 lr.2.2 lr.1
          { ps.1 with Ref := { ps.1.Ref with ID := assoc.ID } }

/-- The inner `for _, assoc := range values` loop for one image. -/
def processAssocs (env : PubEnv) (imageName unpackDir : String)
    (group : List (String × Association)) :
    List (String × Association) → ImgState →
    Except (ImgState × List PubErr) ImgState
  | [], st => Except.ok st
  | ka :: rest, st =>
    match processAssoc env imageName unpackDir group st ka.2 with
    | Except.error f => Except.error f
    | Except.ok st' => processAssocs env imageName unpackDir group rest st'

/-- One iteration of the image loop (publish.go lines 192-310): a fresh
per-image temp directory, the association loop, the mirror-library push
for the image's mappings, and cleanup of the temp directory unless
`SkipCleanup` is set. -/
def processImage (env : PubEnv) (idx : Nat) (imageName : String)
    (group : List (String × Association)) (st : ImgState) :
    Except (ImgState × List PubErr) ImgState :=
  let unpackDir := pathJoin env.tmpdir ("images." ++ toString idx)
  match processAssocs env imageName unpackDir group group { st with mmapping := [] } with
  | Except.error f => Except.error f
  | Except.ok st1 =>
    let st2 :=
      if st1.mmapping ≠ [] then
        match env.publishImageFn st1.mmapping unpackDir with
        | some e => { st1 with errs := st1.errs ++ [PubErr.publishImageErr e] }
        | none => st1
      else st1
    Except.ok (if env.SkipCleanup then st2
      else { st2 with fs := fsRemoveUnder st2.fs unpackDir })

/-- The association set driving the image loop: top-level image key to
the keyed associations of its group. -/
abbrev AssociationSet := List (String × List (String × Association))

/-- The whole per-image loop, numbering the per-image temp directories. -/
def processImages (env : PubEnv) :
    Nat → AssociationSet → ImgState → Except (ImgState × List PubErr) ImgState
  | _, [], st => Except.ok st
  | idx, g :: rest, st =>
    match processImage env idx g.1 g.2 st with
    | Except.error f => Except.error f
    | Except.ok st' => processImages env (idx + 1) rest st'

/-- The run-level error of `Publish`: the fatal aggregate from a
missing-blob fetch, the aggregate of accumulated per-image errors, or an
error from one of the later stages. -/
inductive PublishErr where
  | fatalAgg (errs : List PubErr)
  | aggregate (errs : List PubErr)
  | goErr (e : GoErr)
deriving DecidableEq, Repr

/-- The observable outcome of the stages of `Publish` after the guard:
the returned mappings, the returned error, the metadata store after the
run and whether `backend.WriteMetadata` was invoked. -/
structure PublishOutcome where
  mappings : TypedImageMapping
  err : Option PublishErr
  store : MetaStore
  wroteMetadata : Bool

/-- Write a metadata record into the store at a key. -/
def storeWrite (s : MetaStore) (k : String) (m : Metadata) : MetaStore :=
  (k, m) :: s.filter (fun e => e.1 ≠ k)

/-- The loop starts with an empty workspace and no accumulated state. -/
def initImgState : ImgState :=
  { fs := [], errs := [], mmapping := [], allMappings := [], fetchCalls := [] }

/-- The stages of `Publish` after the sequence guard (publish.go lines
190-333): the per-image loop; on a non-empty error list return the
aggregate without committing metadata; otherwise release signatures,
custom images, and finally `backend.WriteMetadata` replacing the stored
metadata with the incoming record. -/
def publishRun (env : PubEnv) (assocSet : AssociationSet) (store : MetaStore)
    (incoming : Metadata) : PublishOutcome :=
  match processImages env 0 assocSet initImgState with
  | Except.error f =>
    { mappings := f.1.allMappings, err := some (PublishErr.fatalAgg f.2),
      store := store, wroteMetadata := false }
  | Except.ok st =>
    if st.errs ≠ [] then
      { mappings := st.allMappings, err := some (PublishErr.aggregate st.errs),
        store := store, wroteMetadata := false }
    else
      match env.unpackReleaseSignaturesRes with
      | some e =>
        { mappings := st.allMappings, err := some (PublishErr.goErr e),
          store := store, wroteMetadata := false }
      | none =>
        match env.processCustomImagesRes with
        | Except.error e =>
          { mappings := st.allMappings, err := some (PublishErr.goErr e),
            store := store, wroteMetadata := false }
        | Except.ok extra =>
          let allM := tmMerge st.allMappings extra
          match env.writeMetadataErr with
          | some e =>
            { mappings := allM, err := some (PublishErr.goErr e),
              store := store, wroteMetadata := true }
          | none =>
            { mappings := allM, err := none,
              store := storeWrite store (newMetadataImage incoming.Uid) incoming,
              wroteMetadata := true }

/-! ## Concrete instances used by the witnesses -/

/-- An environment whose archive index is empty, whose extraction always
produces nothing, whose reference parser always succeeds (putting the
whole string in `Name`), and whose registry refuses blob reads. -/
def envNoArchive : PubEnv :=
  { filesInArchive := fun _ => none
    extract := fun _ _ _ => Except.ok none
    statCwd := fun _ => none
    parseRef := fun s =>
      ({ Ref := { Registry := "", Namespace := "", Name := s, Tag := "", ID := "" },
         Type' := DestinationType.file }, none)
    toMirrorRef := default
    ToMirror := "reg.test"
    UserNamespace := "ns"
    currentMeta := default
    openBlob := fun _ _ => Except.error (GoErr.msg "open blob: no such host")
    publishImageFn := fun _ _ => none
    SkipCleanup := false
    tmpdir := "tmp"
    unpackReleaseSignaturesRes := none
    processCustomImagesRes := Except.ok []
    writeMetadataErr := none }

/-- A past association owning one layer, for the back-fill witnesses. -/
def assocA : Association :=
  { Name := "reg.orig/ns1/img:latest", Path := "p", TagSymlink := "latest",
    ID := "sha256:m", Type' := ImageType.generic,
    ManifestDigests := [], LayerDigests := ["sha256:l1"] }

/-- Prior metadata whose cumulative associations hold `assocA`. -/
def metaPast : Metadata :=
  { Uid := "u", SingleUse := false,
    PastMirror := { Sequence := 1, Associations := [] },
    PastAssociations := [assocA] }

/-- `envNoArchive` with `metaPast` as the current metadata. -/
def envC8 : PubEnv :=
  { envNoArchive with currentMeta := metaPast }

/-- A file is present with non-empty contents in the workspace. -/
def filePresent (fs : FS) (p : String) : Prop :=
  (fsLookup fs p).getD "" ≠ ""

instance (fs : FS) (p : String) : Decidable (filePresent fs p) := by
  unfold filePresent
  infer_instance

/-- The environment writes only non-empty contents: archive entries and
registry blobs are never empty files. -/
def nonemptyWrites (env : PubEnv) : Prop :=
  (∀ a p d c, env.extract a p d = Except.ok (some c) → c ≠ "")
  ∧ (∀ ref L c, env.openBlob ref L = Except.ok c → c ≠ "")

/-- The effective source reference of an association whose body
succeeded: the parsed `file://` reference with the tag symlink (when
set) and the association's manifest digest. -/
def assocSrc (env : PubEnv) (a : Association) : TypedImageReference :=
  let ps := env.parseRef ("file://" ++ a.Path)
  if a.TagSymlink ≠ "" then
    { ps.1 with Ref := { ps.1.Ref with Tag := a.TagSymlink, ID := a.ID } }
  else
    { ps.1 with Ref := { ps.1.Ref with ID := a.ID } }

/-- How many entries of a mapping carry a given typed source key. -/
def countKey (m : TypedImageMapping) (k : TypedImage) : Nat :=
  (m.filter (fun e => e.1 = k)).length

/-- A simple association whose manifest is not in the (empty) archive. -/
def assocB : Association :=
  { Name := "img", Path := "p", TagSymlink := "", ID := "sha256:m",
    Type' := ImageType.generic, ManifestDigests := [], LayerDigests := [] }

/-- A one-image association set around `assocB`. -/
def setB : AssociationSet := [("img", [("img", assocB)])]

/-- The loop state after processing `setB` under `envNoArchive`: the
main-manifest extraction failed and was accumulated. -/
def stB : ImgState :=
  { fs := []
    errs := [PubErr.unpackMain (GoErr.archiveFileNotFound "v2/p/manifests/sha256:m")]
    mmapping := []
    allMappings := []
    fetchCalls := [] }

/-- An environment with a one-image archive holding one manifest and one
layer blob, whose extraction always produces the bytes "data". -/
def envC6 : PubEnv :=
  { envNoArchive with
    filesInArchive := fun p =>
      if p = "v2/p/manifests/sha256:m" then some "a.tar"
      else if p = "blobs/sha256:l1" then some "a.tar" else none
    extract := fun _ _ _ => Except.ok (some "data") }

/-- A top-level association with one layer, present in `envC6`'s
archive. -/
def assocC : Association :=
  { Name := "img", Path := "p", TagSymlink := "", ID := "sha256:m",
    Type' := ImageType.generic, ManifestDigests := [],
    LayerDigests := ["sha256:l1"] }

/-- The one-image group around `assocC`. -/
def groupC6 : List (String × Association) := [("img", assocC)]

/-- The loop state after processing `groupC6` under `envC6`: both files
extracted, no errors, one mirror mapping and one top-level mapping. -/
def stC6 : ImgState :=
  { fs := [("ud/v2/p/blobs/sha256:l1", "data"), ("ud/v2/p/manifests/sha256:m", "data")]
    errs := []
    mmapping := [{ Name := "img"
                   Source := { Ref := { Registry := "", Namespace := "", Name := "file://p",
                                        Tag := "", ID := "sha256:m" },
                               Type' := DestinationType.file }
                   Destination := { Ref := { Registry := "", Namespace := "ns",
                                             Name := "file://p", Tag := "", ID := "sha256:m" },
                                    Type' := DestinationType.unknown } }]
    allMappings := [({ TIRef := { Ref := { Registry := "", Namespace := "", Name := "img",
                                           Tag := "", ID := "" },
                                  Type' := DestinationType.file }
                       Category := ImageType.generic },
                     { TIRef := { Ref := { Registry := "", Namespace := "ns",
                                           Name := "file://p", Tag := "", ID := "sha256:m" },
                                  Type' := DestinationType.unknown }
                       Category := ImageType.generic })]
    fetchCalls := [] }

/-! # Theorems -/

/-! ## C1: sequence monotonicity and first-run admission -/

/-- C1: with current metadata present at sequence N ≥ 1, the guard in
`Publish` accepts iff the incoming sequence M equals N+1 and otherwise
fails with `SequenceError{want := N+1, got := M}`; when `ReadMetadata`
returns the not-exist sentinel it accepts iff M = 1 and otherwise fails
with `SequenceError{want := 1, got := M}`. -/
theorem sequenceGuard_monotonicity (curr incoming : Metadata) (N M : Int)
    (hN : curr.PastMirror.Sequence = N) (hN1 : 1 ≤ N)
    (hM : incoming.PastMirror.Sequence = M) :
    (sequenceGuard none curr incoming = GuardResult.ok ↔ M = N + 1)
    ∧ (M ≠ N + 1 →
        sequenceGuard none curr incoming = GuardResult.seqErr ⟨N + 1, M⟩)
    ∧ (sequenceGuard (some GoErr.metadataNotExist) curr incoming = GuardResult.ok
        ↔ M = 1)
    ∧ (M ≠ 1 →
        sequenceGuard (some GoErr.metadataNotExist) curr incoming
          = GuardResult.seqErr ⟨1, M⟩) := by
  subst hN; subst hM
  refine ⟨?_, ?_, ?_, ?_⟩
  · by_cases h : incoming.PastMirror.Sequence = curr.PastMirror.Sequence + 1 <;>
      simp [sequenceGuard, h]
  · intro h; simp [sequenceGuard, h]
  · by_cases h : incoming.PastMirror.Sequence = 1 <;> simp [sequenceGuard, h]
  · intro h; simp [sequenceGuard, h]

/-- Concrete instance of the sequence guard property at N = 1, M = 2. -/
def metaSeq (n : Int) (uid : String) : Metadata :=
  { Uid := uid, SingleUse := false,
    PastMirror := { Sequence := n, Associations := [] },
    PastAssociations := [] }

/-- Witness for C1: at current sequence 1 and incoming sequence 2 the
guard accepts. -/
theorem sequenceGuard_monotonicity_witness :
    sequenceGuard none (metaSeq 1 "a") (metaSeq 2 "b") = GuardResult.ok
      ↔ (2 : Int) = 1 + 1 :=
  (sequenceGuard_monotonicity (metaSeq 1 "a") (metaSeq 2 "b") 1 2 rfl
    (by decide) rfl).1

/-! ## C2: Uid divergence behaves as a fresh workspace -/

/-- Prefixing with a fixed string is injective, so distinct Uids give
distinct metadata image URLs. -/
theorem newMetadataImage_inj {u v : String}
    (h : newMetadataImage u = newMetadataImage v) : u = v := by
  have hd := congrArg String.data h
  simp only [newMetadataImage, String.data_append] at hd
  have := List.append_cancel_left hd
  exact String.ext this

/-- The Uid-keyed read misses a lineage stored under a different Uid. -/
theorem readCurrentMetadata_miss (current incoming : Metadata)
    (huid : incoming.Uid ≠ current.Uid) :
    readCurrentMetadata (storeOf current) incoming
      = (some GoErr.metadataNotExist, default) := by
  have hk : newMetadataImage current.Uid ≠ newMetadataImage incoming.Uid := by
    intro h; exact huid (newMetadataImage_inj h).symm
  simp [readCurrentMetadata, storeOf, storeLookup, hk]

/-- C2: a run whose incoming Uid differs from the stored current Uid
reads no current metadata (the store is keyed by the incoming Uid), so
the guard behaves exactly as if current metadata were absent: accepted
iff the incoming sequence is 1, and the only possible failure is the
first-run `SequenceError`, never a Uid error. -/
theorem uid_divergence_fresh_workspace (current incoming : Metadata)
    (huid : incoming.Uid ≠ current.Uid) :
    publishGuardStateful (storeOf current) incoming
      = sequenceGuard (some GoErr.metadataNotExist) default incoming
    ∧ (publishGuardStateful (storeOf current) incoming = GuardResult.ok
        ↔ incoming.PastMirror.Sequence = 1)
    ∧ (incoming.PastMirror.Sequence ≠ 1 →
        publishGuardStateful (storeOf current) incoming
          = GuardResult.seqErr ⟨1, incoming.PastMirror.Sequence⟩) := by
  have hr := readCurrentMetadata_miss current incoming huid
  refine ⟨?_, ?_, ?_⟩
  · simp [publishGuardStateful, hr]
  · by_cases h : incoming.PastMirror.Sequence = 1 <;>
      simp [publishGuardStateful, hr, sequenceGuard, h]
  · intro h; simp [publishGuardStateful, hr, sequenceGuard, h]

/-- Witness for C2: a stored lineage under Uid "a" and an incoming
archive under Uid "b" with sequence 1 is accepted. -/
theorem uid_divergence_fresh_workspace_witness :
    publishGuardStateful (storeOf (metaSeq 7 "a")) (metaSeq 1 "b")
        = GuardResult.ok
      ↔ (metaSeq 1 "b").PastMirror.Sequence = 1 :=
  (uid_divergence_fresh_workspace (metaSeq 7 "a") (metaSeq 1 "b")
    (by decide)).2.1

/-! ## C5: the registry backend's existence check -/

/-- C5: `registryBackend.exists` returns `ErrMetadataNotExist` exactly
when the manifest fetch fails with HTTP 404, or fails with HTTP 401 and
the reference re-parse and push-permission check both succeed; a failing
push-permission check is surfaced as its own error, any other transport
status is surfaced, and any non-transport error is surfaced as-is.  (The
hypotheses say the external library's own errors are never the sentinel
value itself.) -/
theorem existsCheck_spec (m : ManifestResult) (p q : Option GoErr)
    (hp : p ≠ some GoErr.metadataNotExist)
    (hq : q ≠ some GoErr.metadataNotExist)
    (hm : m ≠ ManifestResult.otherErr GoErr.metadataNotExist) :
    (existsCheck m p q = some GoErr.metadataNotExist
      ↔ (m = ManifestResult.transportErr 404
          ∨ (m = ManifestResult.transportErr 401 ∧ p = none ∧ q = none)))
    ∧ (∀ e, m = ManifestResult.transportErr 401 → p = none → q = some e →
        existsCheck m p q = some e)
    ∧ (∀ e, m = ManifestResult.transportErr 401 → p = some e →
        existsCheck m p q = some e)
    ∧ (∀ s, s ≠ 404 → s ≠ 401 → m = ManifestResult.transportErr s →
        existsCheck m p q = some (GoErr.transport s))
    ∧ (∀ e, m = ManifestResult.otherErr e → existsCheck m p q = some e)
    ∧ (m = ManifestResult.ok → existsCheck m p q = none) := by
  refine ⟨?_, ?_, ?_, ?_, ?_, ?_⟩
  · cases m with
    | ok => simp [existsCheck]
    | otherErr e =>
      have he : e ≠ GoErr.metadataNotExist := fun h => hm (by rw [h])
      simp [existsCheck, he]
    | transportErr s =>
      by_cases h404 : s = 404
      · subst h404; simp [existsCheck]
      · by_cases h401 : s = 401
        · subst h401
          cases p with
          | some e =>
            have he : e ≠ GoErr.metadataNotExist := fun h => hp (by rw [h])
            simp [existsCheck, he]
          | none =>
            cases q with
            | some e =>
              have he : e ≠ GoErr.metadataNotExist := fun h => hq (by rw [h])
              simp [existsCheck, he]
            | none => simp [existsCheck]
        · simp [existsCheck, h404, h401]
  · intro e hm' hp' hq'; subst hm'; subst hp'; subst hq'; rfl
  · intro e hm' hp'; subst hm'; subst hp'; rfl
  · intro s h4 h1 hm'; subst hm'; simp [existsCheck, h4, h1]
  · intro e hm'; subst hm'; rfl
  · intro hm'; subst hm'; rfl

/-- Witness for C5: a 401 manifest fetch with a clean push-permission
check yields the not-exist sentinel. -/
theorem existsCheck_spec_witness :
    existsCheck (ManifestResult.transportErr 401) none none
        = some GoErr.metadataNotExist
      ↔ (ManifestResult.transportErr 401 = ManifestResult.transportErr 404
          ∨ (ManifestResult.transportErr 401 = ManifestResult.transportErr 401
              ∧ (none : Option GoErr) = none ∧ (none : Option GoErr) = none)) :=
  (existsCheck_spec (ManifestResult.transportErr 401) none none
    (by decide) (by decide) (by decide)).1

/-! ## C7: error routing in the layer loop -/

/-- The path just recorded for a digest is among that digest's recorded
destination paths. -/
theorem mem_mlPaths_mlInsert (m : MissingLayers) (k v : String) :
    v ∈ mlPaths (mlInsert m k v) k := by
  induction m with
  | nil => simp [mlInsert, mlPaths]
  | cons e rest ih =>
    obtain ⟨k', vs⟩ := e
    by_cases h : k' = k <;> simp [mlInsert, mlPaths, h, ih]

/-- C7: for each layer digest in the loop, a not-found extraction
(`ErrArchiveFileNotFound` or `os.ErrNotExist`) records the digest in
`missingLayers` mapped to its destination blob path without recording an
error, any other extraction error is appended to the per-image error
list, and in both cases processing continues with the next layer; a
successful extraction continues with the written workspace. -/
theorem layer_error_routing (env : PubEnv) (imageName unpackDir assocPath L : String)
    (rest : List String) (fs : FS) (errs : List PubErr) (missing : MissingLayers) :
    (∀ fs', unpack env (pathJoin "blobs" L)
        (pathJoin unpackDir (pathJoin "v2" assocPath)) fs = Except.ok fs' →
      processLayers env imageName unpackDir assocPath (L :: rest) fs errs missing
        = processLayers env imageName unpackDir assocPath rest fs' errs missing)
    ∧ (∀ e, unpack env (pathJoin "blobs" L)
          (pathJoin unpackDir (pathJoin "v2" assocPath)) fs = Except.error e →
        isNotFoundErr e = true →
        processLayers env imageName unpackDir assocPath (L :: rest) fs errs missing
            = processLayers env imageName unpackDir assocPath rest fs errs
                (mlInsert missing L
                  (pathJoin (pathJoin unpackDir (pathJoin "v2" assocPath))
                    (pathJoin "blobs" L)))
          ∧ pathJoin (pathJoin unpackDir (pathJoin "v2" assocPath)) (pathJoin "blobs" L)
              ∈ mlPaths
                  (mlInsert missing L
                    (pathJoin (pathJoin unpackDir (pathJoin "v2" assocPath))
                      (pathJoin "blobs" L))) L)
    ∧ (∀ e, unpack env (pathJoin "blobs" L)
          (pathJoin unpackDir (pathJoin "v2" assocPath)) fs = Except.error e →
        isNotFoundErr e = false →
        processLayers env imageName unpackDir assocPath (L :: rest) fs errs missing
          = processLayers env imageName unpackDir assocPath rest fs
              (errs ++ [PubErr.blobAccess imageName L (pathJoin "blobs" L) e]) missing) := by
  refine ⟨?_, ?_, ?_⟩
  · intro fs' h
    simp only [processLayers, h]
  · intro e h hnf
    refine ⟨?_, mem_mlPaths_mlInsert _ _ _⟩
    simp only [processLayers, h, hnf, if_true]
  · intro e h hnf
    simp only [processLayers, h, hnf]
    simp

/-- Witness for C7: with an empty archive index the extraction fails
with `ErrArchiveFileNotFound` and the digest is recorded in
`missingLayers` with no error appended. -/
theorem layer_error_routing_witness :
    processLayers envNoArchive "img" "tmp/images.0" "p" ["sha256:l1"] [] [] []
        = processLayers envNoArchive "img" "tmp/images.0" "p" [] [] []
            (mlInsert []  "sha256:l1"
              (pathJoin (pathJoin "tmp/images.0" (pathJoin "v2" "p"))
                (pathJoin "blobs" "sha256:l1")))
      ∧ pathJoin (pathJoin "tmp/images.0" (pathJoin "v2" "p"))
            (pathJoin "blobs" "sha256:l1")
          ∈ mlPaths
              (mlInsert [] "sha256:l1"
                (pathJoin (pathJoin "tmp/images.0" (pathJoin "v2" "p"))
                  (pathJoin "blobs" "sha256:l1"))) "sha256:l1" :=
  (layer_error_routing envNoArchive "img" "tmp/images.0" "p" "sha256:l1" [] [] [] []).2.1
    (GoErr.archiveFileNotFound (pathJoin "blobs" "sha256:l1")) rfl rfl

/-! ## C10: a failed source lookup does not skip the fetch -/

/-- C10: in `fetchBlobs`, when the source lookup for a missing layer
fails (no prior association owns the digest), the lookup error is
recorded but the layer is not skipped: `fetchBlob` is still invoked with
the zero-valued image reference, and when that fetch fails the aggregate
holds both the lookup error and the fetch error. -/
theorem fetchBlobs_lookup_failure_still_fetches (env : PubEnv) (meta : Metadata)
    (L : String) (dstPaths : List String) (fs : FS)
    (hnone : GetImageFromBlob meta.PastAssociations L = "")
    (e : GoErr)
    (hfetch : env.openBlob
        { Registry := "", Namespace := "", Name := "", Tag := "", ID := "" } L
      = Except.error e) :
    fetchBlobs env meta [(L, dstPaths)] fs
      = { fs := fs
          errs := [PubErr.findRemoteLayer L
                     (GoErr.msg ("layer " ++ L ++ " is not present in previous metadata")),
                   PubErr.fetchLayer L e]
          calls := [{ Registry := "", Namespace := "", Name := "", Tag := "", ID := "" }] } := by
  have hfr : findBlobRepo env meta.PastAssociations L
      = (default,
         some (GoErr.msg ("layer " ++ L ++ " is not present in previous metadata"))) := by
    simp [findBlobRepo, hnone]
  have hfb : fetchBlob env (default : TypedImageReference).Ref L dstPaths fs
      = Except.error e := by
    show fetchBlob env
      { Registry := "", Namespace := "", Name := "", Tag := "", ID := "" } L dstPaths fs
      = Except.error e
    simp [fetchBlob, hfetch]
  simp only [fetchBlobs, fetchBlobsGo, fetchBlobsStep, hfr, hfb]
  rfl

/-- Witness for C10: no prior associations at all, and the registry
refusing blob reads, yield exactly the two errors and the zero-reference
call. -/
theorem fetchBlobs_lookup_failure_still_fetches_witness :
    fetchBlobs envNoArchive default [("sha256:l9", ["d1"])] []
      = { fs := []
          errs := [PubErr.findRemoteLayer "sha256:l9"
                     (GoErr.msg ("layer " ++ "sha256:l9" ++ " is not present in previous metadata")),
                   PubErr.fetchLayer "sha256:l9" (GoErr.msg "open blob: no such host")]
          calls := [{ Registry := "", Namespace := "", Name := "", Tag := "", ID := "" }] } :=
  fetchBlobs_lookup_failure_still_fetches envNoArchive default "sha256:l9" ["d1"] []
    rfl (GoErr.msg "open blob: no such host") rfl

/-! ## C8: blob back-filling and its fatal no-source condition -/

/-- `fetchBlobsGo` distributes over list append. -/
theorem fetchBlobsGo_append (env : PubEnv) (assocs : List Association)
    (xs ys : MissingLayers) (acc : FetchBlobsResult) :
    fetchBlobsGo env assocs (xs ++ ys) acc
      = fetchBlobsGo env assocs ys (fetchBlobsGo env assocs xs acc) := by
  induction xs generalizing acc with
  | nil => rfl
  | cons x rest ih =>
    simp only [List.cons_append, fetchBlobsGo]
    exact ih _

/-- Each `fetchBlobs` iteration only appends to the error list. -/
theorem fetchBlobsStep_errs_prefix (env : PubEnv) (assocs : List Association)
    (acc : FetchBlobsResult) (x : String × List String) :
    ∃ d, (fetchBlobsStep env assocs acc x).errs = acc.errs ++ d := by
  unfold fetchBlobsStep
  cases hr : (findBlobRepo env assocs x.1).2 with
  | some e' =>
    cases hf : fetchBlob env (findBlobRepo env assocs x.1).1.Ref x.1 x.2 acc.fs with
    | error e =>
      exact ⟨[PubErr.findRemoteLayer x.1 e'] ++ [PubErr.fetchLayer x.1 e], by
        simp [hr, hf]⟩
    | ok fs' => exact ⟨[PubErr.findRemoteLayer x.1 e'], by simp [hr, hf]⟩
  | none =>
    cases hf : fetchBlob env (findBlobRepo env assocs x.1).1.Ref x.1 x.2 acc.fs with
    | error e => exact ⟨[PubErr.fetchLayer x.1 e], by simp [hr, hf]⟩
    | ok fs' => exact ⟨[], by simp [hr, hf]⟩

/-- `fetchBlobsGo` only appends to the accumulated error list. -/
theorem fetchBlobsGo_errs_prefix (env : PubEnv) (assocs : List Association)
    (ml : MissingLayers) (acc : FetchBlobsResult) :
    ∃ d, (fetchBlobsGo env assocs ml acc).errs = acc.errs ++ d := by
  induction ml generalizing acc with
  | nil => exact ⟨[], by simp [fetchBlobsGo]⟩
  | cons x rest ih =>
    obtain ⟨d0, hd0⟩ := fetchBlobsStep_errs_prefix env assocs acc x
    obtain ⟨d, hd⟩ := ih (fetchBlobsStep env assocs acc x)
    exact ⟨d0 ++ d, by simp only [fetchBlobsGo]; rw [hd, hd0, List.append_assoc]⟩

/-- A non-empty error list stays non-empty through the rest of the
`fetchBlobs` loop. -/
theorem fetchBlobsGo_errs_ne_nil (env : PubEnv) (assocs : List Association)
    (ml : MissingLayers) (acc : FetchBlobsResult) (h : acc.errs ≠ []) :
    (fetchBlobsGo env assocs ml acc).errs ≠ [] := by
  obtain ⟨d, hd⟩ := fetchBlobsGo_errs_prefix env assocs ml acc
  rw [hd]
  intro hc
  exact h (List.append_eq_nil.mp hc).1

/-- C8: blob back-filling rewrites the first owning association's
reference to the destination registry under the user namespace; when no
prior association owns a missing digest the aggregate from `fetchBlobs`
is necessarily non-empty, and a non-empty aggregate makes `Publish`
return immediately (the fatal `Except.error` path of the loop and the
`fatalAgg` outcome, with no metadata commit) instead of accumulating it
with the per-image errors. -/
theorem blob_backfill_spec (env : PubEnv) (L : String) (a : Association)
    (hfind : env.currentMeta.PastAssociations.find?
        (fun x => x.LayerDigests.contains L) = some a)
    (hname : a.Name ≠ "")
    (r : TypedImageReference) (perr : Option GoErr)
    (hparse : env.parseRef a.Name = (r, perr)) :
    findBlobRepo env env.currentMeta.PastAssociations L
        = ({ r with Ref := { r.Ref with
              Registry := env.ToMirror
              Namespace := pathJoin env.UserNamespace r.Ref.Namespace } }, perr)
    ∧ (∀ (L' : String) (ps : List String) (fs : FS) (missing : MissingLayers),
        (L', ps) ∈ missing →
        (∀ x ∈ env.currentMeta.PastAssociations, L' ∉ x.LayerDigests) →
        (fetchBlobs env env.currentMeta missing fs).errs ≠ [])
    ∧ (∀ (st : ImgState) (errs3 : List PubErr) (missing : MissingLayers)
          (fs4 : FS) (allM : TypedImageMapping) (mm : List MirrorMapping),
        missing ≠ [] →
        (fetchBlobs env env.currentMeta missing fs4).errs ≠ [] →
        ∃ st', processAssocFinish env st errs3 missing fs4 allM mm
          = Except.error (st', (fetchBlobs env env.currentMeta missing fs4).errs))
    ∧ (∀ (assocSet : AssociationSet) (store : MetaStore) (incoming : Metadata) f,
        processImages env 0 assocSet initImgState = Except.error f →
        (publishRun env assocSet store incoming).err = some (PublishErr.fatalAgg f.2)
        ∧ (publishRun env assocSet store incoming).wroteMetadata = false
        ∧ (publishRun env assocSet store incoming).store = store) := by
  refine ⟨?_, ?_, ?_, ?_⟩
  · simp only [findBlobRepo, GetImageFromBlob, hfind, if_neg hname, hparse]
  · intro L' ps fs missing hmem hnotin
    have hfnone : env.currentMeta.PastAssociations.find?
        (fun x => x.LayerDigests.contains L') = none := by
      apply List.find?_eq_none.mpr
      intro x hx
      simpa using hnotin x hx
    have hgif : GetImageFromBlob env.currentMeta.PastAssociations L' = "" := by
      unfold GetImageFromBlob
      rw [hfnone]
    have hfr : findBlobRepo env env.currentMeta.PastAssociations L'
        = (default,
           some (GoErr.msg ("layer " ++ L' ++ " is not present in previous metadata"))) := by
      unfold findBlobRepo
      rw [hgif]
      simp
    obtain ⟨pre, post, hsplit⟩ := List.append_of_mem hmem
    subst hsplit
    unfold fetchBlobs
    rw [show pre ++ (L', ps) :: post = (pre ++ [(L', ps)]) ++ post by simp]
    rw [fetchBlobsGo_append, fetchBlobsGo_append]
    apply fetchBlobsGo_errs_ne_nil
    have hstep := fetchBlobsStep_errs_prefix env env.currentMeta.PastAssociations
      (fetchBlobsGo env env.currentMeta.PastAssociations pre
        { fs := fs, errs := [], calls := [] }) (L', ps)
    simp only [fetchBlobsGo]
    unfold fetchBlobsStep
    simp only [hfr]
    cases hf : fetchBlob env (default : TypedImageReference).Ref L' ps
        (fetchBlobsGo env env.currentMeta.PastAssociations pre
          { fs := fs, errs := [], calls := [] }).fs with
    | error e => simp
    | ok fs' => simp
  · intro st errs3 missing fs4 allM mm hmiss herrs
    refine ⟨{ fs := (fetchBlobs env env.currentMeta missing fs4).fs
              errs := errs3
              mmapping := mm
              allMappings := allM
              fetchCalls := st.fetchCalls
                ++ (fetchBlobs env env.currentMeta missing fs4).calls }, ?_⟩
    simp only [processAssocFinish, if_pos hmiss, if_pos herrs]
  · intro assocSet store incoming f h
    simp [publishRun, h]

/-- Witness for C8: the layer owned by `assocA` is rewritten to the
destination registry `reg.test` under namespace `ns`. -/
theorem blob_backfill_spec_witness :
    findBlobRepo envC8 envC8.currentMeta.PastAssociations "sha256:l1"
      = ({ Ref := { Registry := "reg.test", Namespace := pathJoin "ns" "",
                    Name := "reg.orig/ns1/img:latest", Tag := "", ID := "" },
           Type' := DestinationType.file }, none) :=
  (blob_backfill_spec envC8 "sha256:l1" assocA rfl (by decide)
    ({ Ref := { Registry := "", Namespace := "", Name := "reg.orig/ns1/img:latest",
                Tag := "", ID := "" }, Type' := DestinationType.file }) none rfl).1

/-! ## C3: a non-empty error list skips the metadata commit -/

/-- C3: when the per-image loop exits (non-fatally) with a non-empty
accumulated error list, `Publish` returns the aggregate of exactly those
errors, `backend.WriteMetadata` is not invoked, and the stored current
metadata is unchanged; conversely the metadata commit is reached only
when the error list is empty and the signature and custom-image stages
succeed. -/
theorem aggregate_errors_skip_commit (env : PubEnv) (assocSet : AssociationSet)
    (store : MetaStore) (incoming : Metadata) (st : ImgState)
    (hok : processImages env 0 assocSet initImgState = Except.ok st) :
    (st.errs ≠ [] →
      (publishRun env assocSet store incoming).err
          = some (PublishErr.aggregate st.errs)
      ∧ (publishRun env assocSet store incoming).wroteMetadata = false
      ∧ (publishRun env assocSet store incoming).store = store)
    ∧ ((publishRun env assocSet store incoming).wroteMetadata = true →
        st.errs = []
        ∧ env.unpackReleaseSignaturesRes = none
        ∧ ∃ ex, env.processCustomImagesRes = Except.ok ex) := by
  constructor
  · intro h
    refine ⟨?_, ?_, ?_⟩ <;> simp [publishRun, hok, h]
  · intro hw
    by_cases h : st.errs = []
    · cases hs : env.unpackReleaseSignaturesRes with
      | some e => simp [publishRun, hok, h, hs] at hw
      | none =>
        cases hc : env.processCustomImagesRes with
        | error e => simp [publishRun, hok, h, hs, hc] at hw
        | ok ex => exact ⟨h, rfl, ex, rfl⟩
    · simp [publishRun, hok, h] at hw

/-- Witness for C3: under the empty archive the one-image run
accumulates an extraction error and returns the aggregate without
writing metadata. -/
theorem aggregate_errors_skip_commit_witness :
    (publishRun envNoArchive setB [] default).err
        = some (PublishErr.aggregate stB.errs)
    ∧ (publishRun envNoArchive setB [] default).wroteMetadata = false
    ∧ (publishRun envNoArchive setB [] default).store = [] :=
  (aggregate_errors_skip_commit envNoArchive setB [] default stB rfl).1 (by decide)

/-! ## C4: metadata round-trips through both backends -/

/-- Rebuilding a string from its character list is the identity. -/
theorem String.mk_data (s : String) : String.mk s.data = s := by
  cases s
  rfl

/-- Decoding the characters an encoder emitted recovers them. -/
theorem decChars_enc (l : List Char) (r : Bytes) :
    decChars l.length (l.map Tok.ch ++ r) = some (l, r) := by
  induction l with
  | nil => simp [decChars]
  | cons c rest ih => simp [decChars, ih]

/-- String decoding inverts string encoding. -/
theorem decStr_encStr (s : String) (r : Bytes) :
    decStr (encStr s ++ r) = some (s, r) := by
  simp only [encStr, List.cons_append, decStr, decChars_enc, Option.map_some']

/-- Boolean decoding inverts boolean encoding. -/
theorem decBool_encBool (b : Bool) (r : Bytes) :
    decBool (encBool b ++ r) = some (b, r) := by
  cases b <;> rfl

/-- Integer decoding inverts integer encoding. -/
theorem decInt_encInt (i : Int) (r : Bytes) :
    decInt (encInt i ++ r) = some (i, r) := by
  cases i <;> rfl

/-- Image-type decoding inverts image-type encoding. -/
theorem decImageType_enc (t : ImageType) (r : Bytes) :
    decImageType (encImageType t ++ r) = some (t, r) := by
  cases t <;> rfl

/-- Decoding `n` elements emitted by a faithful encoder recovers them. -/
theorem decListN_enc {α : Type} (f : α → Bytes) (g : Bytes → Option (α × Bytes))
    (hg : ∀ x r, g (f x ++ r) = some (x, r)) (xs : List α) (r : Bytes) :
    decListN g xs.length ((xs.map f).flatten ++ r) = some (xs, r) := by
  induction xs generalizing r with
  | nil => simp [decListN]
  | cons x rest ih =>
    simp only [List.map_cons, List.flatten_cons, List.length_cons, decListN,
      List.append_assoc, hg]
    simp [ih r]

/-- List decoding inverts length-prefixed list encoding. -/
theorem decListE_enc {α : Type} (f : α → Bytes) (g : Bytes → Option (α × Bytes))
    (hg : ∀ x r, g (f x ++ r) = some (x, r)) (xs : List α) (r : Bytes) :
    decListE g (encListE f xs ++ r) = some (xs, r) := by
  simp [encListE, decListE, decListN_enc f g hg]

/-- Association decoding inverts association encoding. -/
theorem decAssociation_enc (a : Association) (r : Bytes) :
    decAssociation (encAssociation a ++ r) = some (a, r) := by
  simp only [encAssociation, List.append_assoc, decAssociation, decStr_encStr,
    decImageType_enc, decListE_enc encStr decStr decStr_encStr, Option.some_bind,
    Option.map_some']

/-- Metadata decoding inverts metadata encoding. -/
theorem decMetadata_enc (m : Metadata) (r : Bytes) :
    decMetadata (encMetadata m ++ r) = some (m, r) := by
  simp only [encMetadata, List.append_assoc, decMetadata, decStr_encStr,
    decBool_encBool, decInt_encInt,
    decListE_enc encAssociation decAssociation decAssociation_enc,
    Option.some_bind, Option.map_some']

/-- A whole serialized metadata file decodes to the record it encodes. -/
theorem decMetadataFull_enc (m : Metadata) :
    decMetadataFull (encMetadata m) = some m := by
  have h := decMetadata_enc m []
  rw [List.append_nil] at h
  simp [decMetadataFull, h]

/-- Filtering out one path does not change lookups of another. -/
theorem lfsLookup_filter_ne (fs : LocalFS) (p q : String) (h : p ≠ q) :
    lfsLookup (fs.filter (fun e => e.1 ≠ p)) q = lfsLookup fs q := by
  induction fs with
  | nil => rfl
  | cons e rest ih =>
    by_cases he : e.1 = p
    · have hq : e.1 ≠ q := by rw [he]; exact h
      have hf : (e :: rest).filter (fun x => x.1 ≠ p)
          = rest.filter (fun x => x.1 ≠ p) := by
        simp [List.filter_cons, he]
      rw [hf, ih]
      simp [lfsLookup, hq]
    · have hf : (e :: rest).filter (fun x => x.1 ≠ p)
          = e :: rest.filter (fun x => x.1 ≠ p) := by
        simp [List.filter_cons, he]
      rw [hf]
      by_cases heq : e.1 = q
      · simp [lfsLookup, heq]
      · simp only [lfsLookup, if_neg heq]
        exact ih

/-- Looking up the file just written finds exactly its contents. -/
theorem lfsLookup_lfsWrite (fs : LocalFS) (p q : String) (c : Bytes) :
    lfsLookup (lfsWrite fs p c) q = if p = q then some c else lfsLookup fs q := by
  by_cases h : p = q
  · simp [lfsWrite, lfsLookup, h]
  · simp only [lfsWrite, lfsLookup, if_neg h]
    exact lfsLookup_filter_ne fs p q h

/-- Removing one file leaves every other file untouched. -/
theorem lfsLookup_lfsRemove (fs : LocalFS) (p q : String) (h : p ≠ q) :
    lfsLookup (lfsRemove fs p) q = lfsLookup fs q :=
  lfsLookup_filter_ne fs p q h

/-- Looking up the image just pushed finds exactly its contents. -/
theorem imgLookup_imgPush (xs : List (String × ImageContents)) (k : String)
    (v : ImageContents) : imgLookup (imgPush xs k v) k = some v := by
  simp [imgPush, imgLookup]

/-- Joining distinct non-root names under one directory gives distinct
paths. -/
theorem pathJoin_right_inj (dir a b : String) (hb : b ≠ "") (hab : a ≠ b) :
    pathJoin dir a ≠ pathJoin dir b := by
  unfold pathJoin
  by_cases hd : dir = ""
  · simp [hd, hab]
  · by_cases ha : a = ""
    · subst ha
      rw [if_neg hd, if_pos rfl, if_neg hd, if_neg hb]
      intro h
      have hl := congrArg String.length h
      rw [String.length_append, String.length_append] at hl
      have hsl : ("/" : String).length = 1 := rfl
      rw [hsl] at hl
      omega
    · rw [if_neg hd, if_neg ha, if_neg hd, if_neg hb]
      intro h
      apply hab
      have hd2 := congrArg String.data h
      simp only [String.data_append, List.append_assoc] at hd2
      exact String.ext (List.append_cancel_left (List.append_cancel_left hd2))

/-- Decoding one tar entry inverts encoding it. -/
theorem tarEntryDec_enc (e : String × Bytes) (r : Bytes) :
    tarEntryDec (tarEntryEnc e ++ r) = some (e, r) := by
  unfold tarEntryEnc tarEntryDec
  rw [List.append_assoc]
  simp only [decStr_encStr, Option.some_bind, List.cons_append]
  have hle : e.2.length ≤ (e.2 ++ r).length := by simp
  simp [hle, List.take_left, List.drop_left]

/-- The tar codec of `registryBackend.unpack` round-trips the image's
file map. -/
theorem contentsOfTar_tarOfContents (m : ImageContents) :
    contentsOfTar (tarOfContents m) = some m := by
  have h := decListE_enc tarEntryEnc tarEntryDec tarEntryDec_enc m []
  rw [List.append_nil] at h
  simp only [contentsOfTar, tarOfContents, h, Option.some_bind]

/-- C4: for every metadata record, writing with `WriteMetadata` and then
reading with `ReadMetadata` at the same path yields an equal record,
over both the local-directory backend and the registry backend (whose
single-file image round-trips through push, pull, export and untar).
The hypothesis keeps the metadata path distinct from the temp tar name
the registry backend uses while unpacking. -/
theorem metadata_roundtrip (b : localDirBackend) (src : TypedImageReference)
    (st : RegistryState) (M : Metadata) (path : String)
    (hpath : path ≠ src.Ref.Name ++ ".tar") :
    localReadMetadata (localWriteMetadata b M path) path = Except.ok M
    ∧ registryReadMetadata src (registryWriteMetadata src st M path) path
        = Except.ok M := by
  constructor
  · simp [localWriteMetadata, localReadMetadata, lfsLookup_lfsWrite,
      decMetadataFull_enc]
  · have htar : src.Ref.Name ++ ".tar" ≠ "" := by
      intro h
      have hl := congrArg String.length h
      rw [String.length_append] at hl
      have h4 : (".tar" : String).length = 4 := rfl
      have h0 : ("" : String).length = 0 := rfl
      omega
    have hjoin : pathJoin (registryWriteMetadata src st M path).localB.dir path
        ≠ pathJoin (registryWriteMetadata src st M path).localB.dir
            (src.Ref.Name ++ ".tar") :=
      pathJoin_right_inj _ _ _ htar hpath
    simp only [registryReadMetadata, registryWriteMetadata, storeManifest,
      imgLookup_imgPush, existsCheck]
    simp only [registryUnpack, imgLookup_imgPush, contentsOfTar_tarOfContents,
      List.foldl_cons, List.foldl_nil]
    simp only [localWriteMetadata, localReadMetadata]
    rw [lfsLookup_lfsRemove _ _ _ (by
      simpa [registryWriteMetadata, localWriteMetadata] using hjoin.symm)]
    simp [lfsLookup_lfsWrite, decMetadataFull_enc]

/-- A registry backend state and reference for the round-trip witness. -/
def srcW : TypedImageReference :=
  { Ref := { Registry := "reg.test", Namespace := "ns", Name := "oc-mirror",
             Tag := "latest", ID := "" }, Type' := DestinationType.registry }

/-- Witness for C4: a concrete metadata record round-trips through the
registry backend at the standard metadata path. -/
theorem metadata_roundtrip_witness :
    registryReadMetadata srcW
        (registryWriteMetadata srcW
          { localB := { dir := "d", fs := [] }, images := [] }
          metaPast "publish/.metadata.json")
        "publish/.metadata.json"
      = Except.ok metaPast :=
  (metadata_roundtrip { dir := "d", fs := [] } srcW
    { localB := { dir := "d", fs := [] }, images := [] }
    metaPast "publish/.metadata.json" (by decide)).2

/-! ## C6: blob completeness — workspace lemmas -/

/-- Filtering out one path does not change lookups of another
(workspace version). -/
theorem fsLookup_filter_ne (fs : FS) (p q : String) (h : p ≠ q) :
    fsLookup (fs.filter (fun e => e.1 ≠ p)) q = fsLookup fs q := by
  induction fs with
  | nil => rfl
  | cons e rest ih =>
    by_cases he : e.1 = p
    · have hq : e.1 ≠ q := by rw [he]; exact h
      have hf : (e :: rest).filter (fun x => x.1 ≠ p)
          = rest.filter (fun x => x.1 ≠ p) := by
        simp [List.filter_cons, he]
      rw [hf, ih]
      simp [fsLookup, hq]
    · have hf : (e :: rest).filter (fun x => x.1 ≠ p)
          = e :: rest.filter (fun x => x.1 ≠ p) := by
        simp [List.filter_cons, he]
      rw [hf]
      by_cases heq : e.1 = q
      · simp [fsLookup, heq]
      · simp only [fsLookup, if_neg heq]
        exact ih

/-- Looking up a truncating write finds the written contents. -/
theorem fsLookup_fsWriteTrunc (fs : FS) (p q : String) (c : String) :
    fsLookup (fsWriteTrunc fs p c) q = if p = q then some c else fsLookup fs q := by
  by_cases h : p = q
  · simp [fsWriteTrunc, fsLookup, h]
  · simp only [fsWriteTrunc, fsLookup, if_neg h]
    exact fsLookup_filter_ne fs p q h

/-- A non-empty file survives a truncating write of non-empty contents. -/
theorem filePresent_writeTrunc (fs : FS) (p q c : String) (hc : c ≠ "")
    (h : filePresent fs q) : filePresent (fsWriteTrunc fs p c) q := by
  unfold filePresent at *
  rw [fsLookup_fsWriteTrunc]
  by_cases hpq : p = q <;> simp [hpq, hc, h]

/-- The file just written by a truncating write is present and
non-empty. -/
theorem filePresent_writeTrunc_self (fs : FS) (p c : String) (hc : c ≠ "") :
    filePresent (fsWriteTrunc fs p c) p := by
  unfold filePresent
  rw [fsLookup_fsWriteTrunc]
  simp [hc]

/-- Writing without truncation writes the new bytes followed by any old
tail, which is non-empty whenever the new bytes are. -/
theorem fsWriteNoTrunc_nonempty (fs : FS) (p c : String) (hc : c ≠ "") :
    ∃ c', fsWriteNoTrunc fs p c = fsWriteTrunc fs p c' ∧ c' ≠ "" := by
  unfold fsWriteNoTrunc
  cases fsLookup fs p with
  | none => exact ⟨c, rfl, hc⟩
  | some old =>
    refine ⟨c ++ old.drop c.length, rfl, ?_⟩
    intro h
    have hl := congrArg String.length h
    rw [String.length_append] at hl
    have h0 : ("" : String).length = 0 := rfl
    have hcl : c.length ≠ 0 := by
      intro hz
      apply hc
      apply String.ext
      apply List.length_eq_zero.mp
      exact hz
    omega

/-- A non-empty file survives a non-truncating write of non-empty
contents. -/
theorem filePresent_writeNoTrunc (fs : FS) (p q c : String) (hc : c ≠ "")
    (h : filePresent fs q) : filePresent (fsWriteNoTrunc fs p c) q := by
  obtain ⟨c', he, hc'⟩ := fsWriteNoTrunc_nonempty fs p c hc
  rw [he]
  exact filePresent_writeTrunc fs p q c' hc' h

/-- The file just written by a non-truncating write is present and
non-empty. -/
theorem filePresent_writeNoTrunc_self (fs : FS) (p c : String) (hc : c ≠ "") :
    filePresent (fsWriteNoTrunc fs p c) p := by
  obtain ⟨c', he, hc'⟩ := fsWriteNoTrunc_nonempty fs p c hc
  rw [he]
  exact filePresent_writeTrunc_self fs p c' hc'

/-- A successful `unpack` writes one non-empty file at the joined
destination path. -/
theorem unpack_ok (env : PubEnv) (hne : nonemptyWrites env)
    (ap d : String) (fs fs' : FS) (h : unpack env ap d fs = Except.ok fs') :
    ∃ c, c ≠ "" ∧ fs' = fsWriteTrunc fs (pathJoin d ap) c := by
  unfold unpack at h
  split at h
  · exact Except.noConfusion h
  · split at h
    · exact Except.noConfusion h
    · exact Except.noConfusion h
    · next c hex =>
      injection h with h1
      exact ⟨c, hne.1 _ _ _ _ hex, h1.symm⟩

/-- Presence of non-empty files is preserved by a successful `unpack`. -/
theorem unpack_pres (env : PubEnv) (hne : nonemptyWrites env)
    (ap d : String) (fs fs' : FS) (h : unpack env ap d fs = Except.ok fs')
    (p : String) (hp : filePresent fs p) : filePresent fs' p := by
  obtain ⟨c, hc, rfl⟩ := unpack_ok env hne ap d fs fs' h
  exact filePresent_writeTrunc fs _ p c hc hp

/-- The layer loop only appends to the error list. -/
theorem processLayers_errs_prefix (env : PubEnv)
    (imageName unpackDir assocPath : String) (layers : List String)
    (fs : FS) (errs : List PubErr) (missing : MissingLayers) :
    ∃ d, (processLayers env imageName unpackDir assocPath layers fs errs missing).2.1
      = errs ++ d := by
  induction layers generalizing fs errs missing with
  | nil => exact ⟨[], by simp [processLayers]⟩
  | cons L rest ih =>
    simp only [processLayers]
    cases hu : unpack env (pathJoin "blobs" L)
        (pathJoin unpackDir (pathJoin "v2" assocPath)) fs with
    | ok fs' => exact ih fs' errs missing
    | error e =>
      by_cases hnf : isNotFoundErr e
      · simp only [hnf, if_true]
        exact ih fs errs _
      · simp only [hnf, Bool.false_eq_true, if_false]
        obtain ⟨d, hd⟩ := ih fs (errs ++ [PubErr.blobAccess imageName L (pathJoin "blobs" L) e]) missing
        exact ⟨[PubErr.blobAccess imageName L (pathJoin "blobs" L) e] ++ d, by
          rw [hd, List.append_assoc]⟩

/-- The layer loop preserves non-empty files. -/
theorem processLayers_pres (env : PubEnv) (hne : nonemptyWrites env)
    (imageName unpackDir assocPath : String) (layers : List String)
    (fs : FS) (errs : List PubErr) (missing : MissingLayers)
    (p : String) (hp : filePresent fs p) :
    filePresent (processLayers env imageName unpackDir assocPath layers fs errs missing).1 p := by
  induction layers generalizing fs errs missing with
  | nil => simpa [processLayers] using hp
  | cons L rest ih =>
    simp only [processLayers]
    cases hu : unpack env (pathJoin "blobs" L)
        (pathJoin unpackDir (pathJoin "v2" assocPath)) fs with
    | ok fs' => exact ih fs' errs missing (unpack_pres env hne _ _ fs fs' hu p hp)
    | error e =>
      by_cases hnf : isNotFoundErr e
      · simp only [hnf, if_true]
        exact ih fs errs _ hp
      · simp only [hnf, Bool.false_eq_true, if_false]
        exact ih fs _ missing hp

/-- Recorded missing-layer paths only grow along the layer loop. -/
theorem mlPaths_mlInsert (m : MissingLayers) (k' v k : String) :
    mlPaths (mlInsert m k' v) k
      = if k' = k then mlPaths m k ++ [v] else mlPaths m k := by
  induction m with
  | nil =>
    by_cases h : k' = k <;> simp [mlInsert, mlPaths, h]
  | cons e rest ih =>
    obtain ⟨ek, evs⟩ := e
    by_cases he : ek = k'
    · subst he
      by_cases hk : ek = k <;> simp [mlInsert, mlPaths, hk, ih]
    · by_cases hk : ek = k
      · subst hk
        have : ¬ k' = ek := fun hh => he hh.symm
        simp [mlInsert, mlPaths, he, this, ih]
      · simp [mlInsert, mlPaths, he, hk, ih]

/-- Paths recorded in the missing map persist through the layer loop. -/
theorem processLayers_missing_mono (env : PubEnv)
    (imageName unpackDir assocPath : String) (layers : List String)
    (fs : FS) (errs : List PubErr) (missing : MissingLayers)
    (L : String) (q : String) (hq : q ∈ mlPaths missing L) :
    q ∈ mlPaths (processLayers env imageName unpackDir assocPath layers fs errs missing).2.2 L := by
  induction layers generalizing fs errs missing with
  | nil => simpa [processLayers] using hq
  | cons L' rest ih =>
    simp only [processLayers]
    cases hu : unpack env (pathJoin "blobs" L')
        (pathJoin unpackDir (pathJoin "v2" assocPath)) fs with
    | ok fs' => exact ih fs' errs missing hq
    | error e =>
      by_cases hnf : isNotFoundErr e
      · simp only [hnf, if_true]
        apply ih
        rw [mlPaths_mlInsert]
        by_cases hk : L' = L <;> simp [hk, hq]
      · simp only [hnf, Bool.false_eq_true, if_false]
        exact ih fs _ missing hq

/-- When the layer loop records no error, every layer is either already
present (non-empty) in the workspace or recorded in the missing map with
its destination path. -/
theorem processLayers_coverage (env : PubEnv) (hne : nonemptyWrites env)
    (imageName unpackDir assocPath : String) (layers : List String)
    (fs : FS) (errs : List PubErr) (missing : MissingLayers)
    (hrem : (processLayers env imageName unpackDir assocPath layers fs errs missing).2.1 = errs) :
    ∀ L ∈ layers,
      filePresent (processLayers env imageName unpackDir assocPath layers fs errs missing).1
        (pathJoin (pathJoin unpackDir (pathJoin "v2" assocPath)) (pathJoin "blobs" L))
      ∨ pathJoin (pathJoin unpackDir (pathJoin "v2" assocPath)) (pathJoin "blobs" L)
          ∈ mlPaths (processLayers env imageName unpackDir assocPath layers fs errs missing).2.2 L := by
  induction layers generalizing fs errs missing with
  | nil => intro L hL; exact absurd hL (by simp)
  | cons L' rest ih =>
    intro L hL
    simp only [processLayers] at hrem ⊢
    cases hu : unpack env (pathJoin "blobs" L')
        (pathJoin unpackDir (pathJoin "v2" assocPath)) fs with
    | ok fs' =>
      rw [hu] at hrem
      rcases List.mem_cons.mp hL with hL' | hLr
      · subst hL'
        left
        apply processLayers_pres env hne
        obtain ⟨c, hc, rfl⟩ := unpack_ok env hne _ _ fs fs' hu
        exact filePresent_writeTrunc_self fs _ c hc
      · exact ih fs' errs missing hrem L hLr
    | error e =>
      rw [hu] at hrem
      by_cases hnf : isNotFoundErr e
      · simp only [hnf, if_true] at hrem ⊢
        rcases List.mem_cons.mp hL with hL' | hLr
        · subst hL'
          right
          apply processLayers_missing_mono
          rw [mlPaths_mlInsert]
          simp
        · exact ih fs errs _ hrem L hLr
      · simp only [hnf, Bool.false_eq_true, if_false] at hrem ⊢
        obtain ⟨d, hd⟩ := processLayers_errs_prefix env imageName unpackDir assocPath
          rest fs (errs ++ [PubErr.blobAccess imageName L' (pathJoin "blobs" L') e]) missing
        rw [hd] at hrem
        rw [List.append_assoc] at hrem
        have := List.append_cancel_left (hrem.trans (List.append_nil errs).symm)
        exact absurd this (by simp)

/-! ## C6: blob completeness — fetch lemmas -/

/-- A successful `fetchBlob` copies one non-empty blob stream into every
destination path. -/
theorem fetchBlob_ok (env : PubEnv) (ref : DockerImageReference) (L : String)
    (ps : List String) (fs fs' : FS)
    (h : fetchBlob env ref L ps fs = Except.ok fs') :
    ∃ c, env.openBlob ref L = Except.ok c
      ∧ fs' = ps.foldl (fun f p => copyBlobFile c p f) fs := by
  unfold fetchBlob at h
  split at h
  · exact Except.noConfusion h
  · next c hob =>
    injection h with h1
    exact ⟨c, hob, h1.symm⟩

/-- Copying a non-empty stream to a list of paths preserves non-empty
files. -/
theorem copyFold_pres (c : String) (hc : c ≠ "") (ps : List String) (fs : FS)
    (p : String) (hp : filePresent fs p) :
    filePresent (ps.foldl (fun f q => copyBlobFile c q f) fs) p := by
  induction ps generalizing fs with
  | nil => simpa using hp
  | cons q rest ih =>
    simp only [List.foldl_cons]
    exact ih _ (filePresent_writeNoTrunc fs q p c hc hp)

/-- After copying a non-empty stream, every destination path holds a
non-empty file. -/
theorem copyFold_present (c : String) (hc : c ≠ "") (ps : List String) (fs : FS) :
    ∀ q ∈ ps, filePresent (ps.foldl (fun f r => copyBlobFile c r f) fs) q := by
  induction ps generalizing fs with
  | nil => intro q hq; exact absurd hq (by simp)
  | cons r rest ih =>
    intro q hq
    simp only [List.foldl_cons]
    rcases List.mem_cons.mp hq with h | h
    · subst h
      exact copyFold_pres c hc rest _ q (filePresent_writeNoTrunc_self fs q c hc)
    · exact ih _ q h

/-- One `fetchBlobs` iteration preserves non-empty files. -/
theorem fetchBlobsStep_pres (env : PubEnv) (hne : nonemptyWrites env)
    (assocs : List Association) (acc : FetchBlobsResult) (x : String × List String)
    (p : String) (hp : filePresent acc.fs p) :
    filePresent (fetchBlobsStep env assocs acc x).fs p := by
  simp only [fetchBlobsStep]
  cases hf : fetchBlob env (findBlobRepo env assocs x.1).1.Ref x.1 x.2 acc.fs with
  | error e => simpa using hp
  | ok fs' =>
    obtain ⟨c, hob, rfl⟩ := fetchBlob_ok env _ x.1 x.2 acc.fs fs' hf
    simpa using copyFold_pres c (hne.2 _ _ _ hob) x.2 acc.fs p hp

/-- The whole `fetchBlobs` loop preserves non-empty files. -/
theorem fetchBlobsGo_pres (env : PubEnv) (hne : nonemptyWrites env)
    (assocs : List Association) (ml : MissingLayers) (acc : FetchBlobsResult)
    (p : String) (hp : filePresent acc.fs p) :
    filePresent (fetchBlobsGo env assocs ml acc).fs p := by
  induction ml generalizing acc with
  | nil => simpa [fetchBlobsGo] using hp
  | cons x rest ih =>
    simp only [fetchBlobsGo]
    exact ih _ (fetchBlobsStep_pres env hne assocs acc x p hp)

/-- An error-free `fetchBlobs` iteration fetched its blob. -/
theorem fetchBlobsStep_ok (env : PubEnv) (assocs : List Association)
    (acc : FetchBlobsResult) (x : String × List String)
    (h : (fetchBlobsStep env assocs acc x).errs = acc.errs) :
    ∃ fs', fetchBlob env (findBlobRepo env assocs x.1).1.Ref x.1 x.2 acc.fs
        = Except.ok fs'
      ∧ (fetchBlobsStep env assocs acc x).fs = fs' := by
  unfold fetchBlobsStep at h ⊢
  cases hr : (findBlobRepo env assocs x.1).2 with
  | some e' =>
    exfalso
    cases hf : fetchBlob env (findBlobRepo env assocs x.1).1.Ref x.1 x.2 acc.fs with
    | error e =>
      simp only [hr, hf] at h
      have hl := congrArg List.length h
      simp at hl
    | ok fs' =>
      simp only [hr, hf] at h
      have hl := congrArg List.length h
      simp at hl
  | none =>
    cases hf : fetchBlob env (findBlobRepo env assocs x.1).1.Ref x.1 x.2 acc.fs with
    | error e =>
      exfalso
      simp only [hr, hf] at h
      have hl := congrArg List.length h
      simp at hl
    | ok fs' =>
      refine ⟨fs', rfl, ?_⟩
      simp [hr, hf]

/-- When the `fetchBlobs` loop records no error, every destination path
of every missing layer holds a non-empty file afterwards. -/
theorem fetchBlobsGo_covers (env : PubEnv) (hne : nonemptyWrites env)
    (assocs : List Association) (ml : MissingLayers) (acc : FetchBlobsResult)
    (h : (fetchBlobsGo env assocs ml acc).errs = acc.errs) :
    ∀ x ∈ ml, ∀ q ∈ x.2, filePresent (fetchBlobsGo env assocs ml acc).fs q := by
  induction ml generalizing acc with
  | nil => intro x hx; exact absurd hx (by simp)
  | cons x rest ih =>
    intro y hy q hq
    obtain ⟨d0, hd0⟩ := fetchBlobsStep_errs_prefix env assocs acc x
    obtain ⟨d1, hd1⟩ := fetchBlobsGo_errs_prefix env assocs rest
      (fetchBlobsStep env assocs acc x)
    simp only [fetchBlobsGo] at h
    rw [hd1, hd0, List.append_assoc] at h
    have hnil : d0 ++ d1 = [] :=
      List.append_cancel_left (h.trans (List.append_nil acc.errs).symm)
    have hstep_errs : (fetchBlobsStep env assocs acc x).errs = acc.errs := by
      rw [hd0, (List.append_eq_nil.mp hnil).1, List.append_nil]
    have hrest_errs : (fetchBlobsGo env assocs rest
        (fetchBlobsStep env assocs acc x)).errs
        = (fetchBlobsStep env assocs acc x).errs := by
      rw [hd1, (List.append_eq_nil.mp hnil).2, List.append_nil]
    simp only [fetchBlobsGo]
    rcases List.mem_cons.mp hy with hyx | hyr
    · subst hyx
      obtain ⟨fs', hfb, hfs⟩ := fetchBlobsStep_ok env assocs acc y hstep_errs
      obtain ⟨c, hob, hfold⟩ := fetchBlob_ok env _ y.1 y.2 acc.fs fs' hfb
      apply fetchBlobsGo_pres env hne assocs rest _ q
      rw [hfs, hfold]
      exact copyFold_present c (hne.2 _ _ _ hob) y.2 acc.fs q hq
    · exact ih (fetchBlobsStep env assocs acc x) hrest_errs y hyr q hq

/-! ## C6: blob completeness — association body lemmas -/

/-- Child-manifest extraction only appends to the error list. -/
theorem childManifests_errs_prefix (env : PubEnv)
    (imageName unpackDir manifestPath : String)
    (group : List (String × Association)) (mds : List String)
    (fs : FS) (errs : List PubErr) :
    ∃ d, (childManifests env imageName unpackDir manifestPath group mds fs errs).2
      = errs ++ d := by
  induction mds generalizing fs errs with
  | nil => exact ⟨[], by simp [childManifests]⟩
  | cons md rest ih =>
    simp only [childManifests]
    split
    · obtain ⟨d, hd⟩ := ih fs (errs ++ [PubErr.missingManifestAssoc imageName md])
      exact ⟨[PubErr.missingManifestAssoc imageName md] ++ d, by
        rw [hd, List.append_assoc]⟩
    · split
      · exact ih fs errs
      · next e _ =>
        split
        · split
          · next fs' _ => exact ih fs' errs
          · next e' _ =>
            obtain ⟨d, hd⟩ := ih fs (errs ++ [PubErr.unpackChild e'])
            exact ⟨[PubErr.unpackChild e'] ++ d, by rw [hd, List.append_assoc]⟩
        · obtain ⟨d, hd⟩ := ih fs (errs ++ [PubErr.statAccess imageName md e])
          exact ⟨[PubErr.statAccess imageName md e] ++ d, by
            rw [hd, List.append_assoc]⟩

/-- Child-manifest extraction preserves non-empty files. -/
theorem childManifests_pres (env : PubEnv) (hne : nonemptyWrites env)
    (imageName unpackDir manifestPath : String)
    (group : List (String × Association)) (mds : List String)
    (fs : FS) (errs : List PubErr) (p : String) (hp : filePresent fs p) :
    filePresent (childManifests env imageName unpackDir manifestPath group mds fs errs).1 p := by
  induction mds generalizing fs errs with
  | nil => simpa [childManifests] using hp
  | cons md rest ih =>
    simp only [childManifests]
    split
    · exact ih fs _ hp
    · split
      · exact ih fs errs hp
      · split
        · split
          · next fs' hu => exact ih fs' errs (unpack_pres env hne _ _ fs fs' hu p hp)
          · exact ih fs _ hp
        · exact ih fs _ hp

/-- A recorded path in the missing map names an entry of the map. -/
theorem mlPaths_mem (m : MissingLayers) (L q : String) (hq : q ∈ mlPaths m L) :
    ∃ vs, (L, vs) ∈ m ∧ q ∈ vs := by
  induction m with
  | nil => exact absurd hq (by simp [mlPaths])
  | cons e rest ih =>
    obtain ⟨k, vs⟩ := e
    by_cases hk : k = L
    · subst hk
      simp only [mlPaths, if_pos rfl] at hq
      exact ⟨vs, by simp, hq⟩
    · simp only [mlPaths, if_neg hk] at hq
      obtain ⟨vs', hm, hv⟩ := ih hq
      exact ⟨vs', by simp [hm], hv⟩

/-- A successful `processAssocFinish` keeps the error list, installs the
given mappings, preserves non-empty files and materializes every
recorded missing-layer destination. -/
theorem processAssocFinish_ok_spec (env : PubEnv) (hne : nonemptyWrites env)
    (st : ImgState) (errs3 : List PubErr) (missing : MissingLayers) (fs4 : FS)
    (allM : TypedImageMapping) (mm : List MirrorMapping) (st' : ImgState)
    (h : processAssocFinish env st errs3 missing fs4 allM mm = Except.ok st') :
    st'.errs = errs3
    ∧ st'.allMappings = allM
    ∧ (∀ p, filePresent fs4 p → filePresent st'.fs p)
    ∧ (∀ L q, q ∈ mlPaths missing L → filePresent st'.fs q) := by
  unfold processAssocFinish at h
  by_cases hm : missing = []
  · subst hm
    rw [if_neg (by simp)] at h
    injection h with h1
    subst h1
    exact ⟨rfl, rfl, fun p hp => hp, fun L q hq => absurd hq (by simp [mlPaths])⟩
  · rw [if_pos hm] at h
    by_cases hr : (fetchBlobs env env.currentMeta missing fs4).errs = []
    · rw [if_neg (by simp [hr])] at h
      injection h with h1
      subst h1
      refine ⟨rfl, rfl, ?_, ?_⟩
      · intro p hp
        exact fetchBlobsGo_pres env hne _ missing _ p hp
      · intro L q hq
        obtain ⟨vs, hmem, hv⟩ := mlPaths_mem missing L q hq
        exact fetchBlobsGo_covers env hne _ missing _ hr (L, vs) hmem q hv
    · rw [if_pos hr] at h
      exact Except.noConfusion h

/-- The child-manifest stage only appends to the error list. -/
theorem assocChildStep_errs_prefix (env : PubEnv)
    (imageName unpackDir manifestPath : String)
    (group : List (String × Association)) (a : Association)
    (fs : FS) (errs : List PubErr) :
    ∃ d, (assocChildStep env imageName unpackDir manifestPath group a fs errs).2
      = errs ++ d := by
  unfold assocChildStep
  split
  · exact childManifests_errs_prefix env imageName unpackDir manifestPath group
      a.ManifestDigests fs errs
  · exact ⟨[], by simp⟩

/-- The child-manifest stage preserves non-empty files. -/
theorem assocChildStep_pres (env : PubEnv) (hne : nonemptyWrites env)
    (imageName unpackDir manifestPath : String)
    (group : List (String × Association)) (a : Association)
    (fs : FS) (errs : List PubErr) (p : String) (hp : filePresent fs p) :
    filePresent (assocChildStep env imageName unpackDir manifestPath group a fs errs).1 p := by
  unfold assocChildStep
  split
  · exact childManifests_pres env hne imageName unpackDir manifestPath group
      a.ManifestDigests fs errs p hp
  · exact hp

/-- A successful `processAssocMap` extends the error list; when it adds
no error, it installs exactly the top-level mapping dictated by the
association's name, preserves non-empty files and materializes every
recorded missing-layer destination. -/
theorem processAssocMap_ok_spec (env : PubEnv) (hne : nonemptyWrites env)
    (imageName : String) (st : ImgState) (assoc : Association)
    (errs3 : List PubErr) (missing : MissingLayers) (fs4 : FS)
    (src : TypedImageReference) (st' : ImgState)
    (h : processAssocMap env imageName st assoc errs3 missing fs4 src
      = Except.ok st') :
    (∃ d, st'.errs = errs3 ++ d)
    ∧ (∀ p, filePresent fs4 p → filePresent st'.fs p)
    ∧ (st'.errs = errs3 →
        st'.allMappings = (if assoc.Name = imageName
          then tmAdd st.allMappings (env.parseRef imageName).1
            (assocDest env src) assoc.Type'
          else st.allMappings)
        ∧ (∀ L q, q ∈ mlPaths missing L → filePresent st'.fs q)) := by
  simp only [processAssocMap] at h
  split at h
  · next hname =>
    split at h
    · next e htp =>
      injection h with h1
      subst h1
      refine ⟨⟨[PubErr.parseTop e], rfl⟩, fun p hp => hp, ?_⟩
      intro hc
      exfalso
      have := congrArg List.length hc
      simp at this
    · next htp =>
      obtain ⟨he, hm, hpres, hcov⟩ := processAssocFinish_ok_spec env hne st errs3
        missing fs4 _ _ st' h
      refine ⟨⟨[], by rw [he, List.append_nil]⟩, hpres, fun _ => ⟨?_, hcov⟩⟩
      rw [hm, if_pos hname]
  · next hname =>
    obtain ⟨he, hm, hpres, hcov⟩ := processAssocFinish_ok_spec env hne st errs3
      missing fs4 _ _ st' h
    refine ⟨⟨[], by rw [he, List.append_nil]⟩, hpres, fun _ => ⟨?_, hcov⟩⟩
    rw [hm, if_neg hname]

/-- A successful association body extends the error list and preserves
non-empty files; when it records no error it installs exactly the
top-level mapping dictated by its name and materializes every one of its
layer blobs, non-empty, at the association's blob directory. -/
theorem processAssoc_ok_spec (env : PubEnv) (hne : nonemptyWrites env)
    (imageName unpackDir : String) (group : List (String × Association))
    (st : ImgState) (a : Association) (st' : ImgState)
    (h : processAssoc env imageName unpackDir group st a = Except.ok st') :
    (∃ d, st'.errs = st.errs ++ d)
    ∧ (∀ p, filePresent st.fs p → filePresent st'.fs p)
    ∧ (st'.errs = st.errs →
        st'.allMappings = (if a.Name = imageName
          then tmAdd st.allMappings (env.parseRef imageName).1
            (assocDest env (assocSrc env a)) a.Type'
          else st.allMappings)
        ∧ ∀ L ∈ a.LayerDigests,
            filePresent st'.fs
              (pathJoin (pathJoin unpackDir (pathJoin "v2" a.Path)) (pathJoin "blobs" L))) := by
  obtain ⟨dcm, hdcm⟩ := assocChildStep_errs_prefix env imageName unpackDir
    (pathJoin (pathJoin "v2" a.Path) "manifests") group a st.fs st.errs
  have hcspres := assocChildStep_pres env hne imageName unpackDir
    (pathJoin (pathJoin "v2" a.Path) "manifests") group a st.fs st.errs
  simp only [processAssoc] at h
  split at h
  · next e hu =>
    injection h with h1
    subst h1
    refine ⟨⟨dcm ++ [PubErr.unpackMain e], by rw [hdcm, List.append_assoc]⟩,
      fun p hp => hcspres p hp, ?_⟩
    intro hc
    exfalso
    rw [hdcm, List.append_assoc] at hc
    have := List.append_cancel_left (hc.trans (List.append_nil st.errs).symm)
    simp at this
  · next fs2 hu =>
    have hf2pres : ∀ p, filePresent st.fs p → filePresent fs2 p :=
      fun p hp => unpack_pres env hne _ _ _ fs2 hu p (hcspres p hp)
    obtain ⟨dl, hdl⟩ := processLayers_errs_prefix env imageName unpackDir a.Path
      a.LayerDigests fs2
      (assocChildStep env imageName unpackDir
        (pathJoin (pathJoin "v2" a.Path) "manifests") group a st.fs st.errs).2 []
    have hlpres := processLayers_pres env hne imageName unpackDir a.Path
      a.LayerDigests fs2
      (assocChildStep env imageName unpackDir
        (pathJoin (pathJoin "v2" a.Path) "manifests") group a st.fs st.errs).2 []
    split at h
    · next e hps =>
      injection h with h1
      subst h1
      refine ⟨⟨dcm ++ (dl ++ [PubErr.parseSource a.Path e]), by
          rw [hdl, hdcm]; simp [List.append_assoc]⟩,
        fun p hp => hlpres p (hf2pres p hp), ?_⟩
      intro hc
      exfalso
      rw [hdl, hdcm] at hc
      simp only [List.append_assoc] at hc
      have := List.append_cancel_left (hc.trans (List.append_nil st.errs).symm)
      simp at this
    · next hps =>
      split at h
      · next hts =>
        split at h
        · next e hu2 =>
          injection h with h1
          subst h1
          refine ⟨⟨dcm ++ (dl ++ [PubErr.unpackSymlink e]), by
              rw [hdl, hdcm]; simp [List.append_assoc]⟩,
            fun p hp => hlpres p (hf2pres p hp), ?_⟩
          intro hc
          exfalso
          rw [hdl, hdcm] at hc
          simp only [List.append_assoc] at hc
          have := List.append_cancel_left (hc.trans (List.append_nil st.errs).symm)
          simp at this
        · next fs4 hu2 =>
          obtain ⟨⟨dm, hdm⟩, hmpres, hm3⟩ := processAssocMap_ok_spec env hne
            imageName st a _ _ fs4 _ st' h
          have hf4pres : ∀ p, filePresent st.fs p → filePresent fs4 p :=
            fun p hp => unpack_pres env hne _ _ _ fs4 hu2 p (hlpres p (hf2pres p hp))
          refine ⟨⟨dcm ++ (dl ++ dm), by
              rw [hdm, hdl, hdcm]; simp [List.append_assoc]⟩,
            fun p hp => hmpres p (hf4pres p hp), ?_⟩
          intro hc
          rw [hdm, hdl, hdcm] at hc
          simp only [List.append_assoc] at hc
          have hnil := List.append_cancel_left (hc.trans (List.append_nil st.errs).symm)
          have hdcm0 : dcm = [] := (List.append_eq_nil.mp hnil).1
          have hdl0 : dl = [] := (List.append_eq_nil.mp (List.append_eq_nil.mp hnil).2).1
          have hdm0 : dm = [] := (List.append_eq_nil.mp (List.append_eq_nil.mp hnil).2).2
          obtain ⟨hmap, hcov⟩ := hm3 (by rw [hdm, hdm0, List.append_nil])
          have hsrc : assocSrc env a
              = { (env.parseRef ("file://" ++ a.Path)).1 with
                  Ref := { (env.parseRef ("file://" ++ a.Path)).1.Ref with
                    Tag := a.TagSymlink, ID := a.ID } } := by
            simp only [assocSrc, if_pos hts]
          constructor
          · rw [hsrc]
            exact hmap
          · intro L hL
            have hrem : (processLayers env imageName unpackDir a.Path a.LayerDigests fs2
                (assocChildStep env imageName unpackDir
                  (pathJoin (pathJoin "v2" a.Path) "manifests") group a
                  st.fs st.errs).2 []).2.1
                = (assocChildStep env imageName unpackDir
                  (pathJoin (pathJoin "v2" a.Path) "manifests") group a
                  st.fs st.errs).2 := by
              rw [hdl, hdl0, List.append_nil]
            rcases processLayers_coverage env hne imageName unpackDir a.Path
                a.LayerDigests fs2 _ [] hrem L hL with hpre | hmiss
            · exact hmpres _ (unpack_pres env hne _ _ _ fs4 hu2 _ hpre)
            · exact hcov L _ hmiss
      · next hts =>
        obtain ⟨⟨dm, hdm⟩, hmpres, hm3⟩ := processAssocMap_ok_spec env hne
          imageName st a _ _ _ _ st' h
        refine ⟨⟨dcm ++ (dl ++ dm), by
            rw [hdm, hdl, hdcm]; simp [List.append_assoc]⟩,
          fun p hp => hmpres p (hlpres p (hf2pres p hp)), ?_⟩
        intro hc
        rw [hdm, hdl, hdcm] at hc
        simp only [List.append_assoc] at hc
        have hnil := List.append_cancel_left (hc.trans (List.append_nil st.errs).symm)
        have hdl0 : dl = [] := (List.append_eq_nil.mp (List.append_eq_nil.mp hnil).2).1
        have hdm0 : dm = [] := (List.append_eq_nil.mp (List.append_eq_nil.mp hnil).2).2
        obtain ⟨hmap, hcov⟩ := hm3 (by rw [hdm, hdm0, List.append_nil])
        have hsrc : assocSrc env a
            = { (env.parseRef ("file://" ++ a.Path)).1 with
                Ref := { (env.parseRef ("file://" ++ a.Path)).1.Ref with
                  ID := a.ID } } := by
          simp only [assocSrc, if_neg hts]
        constructor
        · rw [hsrc]
          exact hmap
        · intro L hL
          have hrem : (processLayers env imageName unpackDir a.Path a.LayerDigests fs2
              (assocChildStep env imageName unpackDir
                (pathJoin (pathJoin "v2" a.Path) "manifests") group a
                st.fs st.errs).2 []).2.1
              = (assocChildStep env imageName unpackDir
                (pathJoin (pathJoin "v2" a.Path) "manifests") group a
                st.fs st.errs).2 := by
            rw [hdl, hdl0, List.append_nil]
          rcases processLayers_coverage env hne imageName unpackDir a.Path
              a.LayerDigests fs2 _ [] hrem L hL with hpre | hmiss
          · exact hmpres _ hpre
          · exact hcov L _ hmiss

/-- A successful association loop extends the error list and preserves
non-empty files; when it records no error, every layer digest of every
processed association has a non-empty blob file in the per-image
layout. -/
theorem processAssocs_ok_spec (env : PubEnv) (hne : nonemptyWrites env)
    (imageName unpackDir : String) (group : List (String × Association))
    (l : List (String × Association)) (st st' : ImgState)
    (h : processAssocs env imageName unpackDir group l st = Except.ok st') :
    (∃ d, st'.errs = st.errs ++ d)
    ∧ (∀ p, filePresent st.fs p → filePresent st'.fs p)
    ∧ (st'.errs = st.errs →
        ∀ ka ∈ l, ∀ L ∈ ka.2.LayerDigests,
          filePresent st'.fs
            (pathJoin (pathJoin unpackDir (pathJoin "v2" ka.2.Path)) (pathJoin "blobs" L))) := by
  induction l generalizing st with
  | nil =>
    simp only [processAssocs] at h
    injection h with h1
    subst h1
    exact ⟨⟨[], by simp⟩, fun p hp => hp, fun _ ka hka => absurd hka (by simp)⟩
  | cons ka rest ih =>
    simp only [processAssocs] at h
    split at h
    · exact Except.noConfusion h
    · next st1 hpa =>
      obtain ⟨⟨d1, hd1⟩, hpres1, h31⟩ := processAssoc_ok_spec env hne imageName
        unpackDir group st ka.2 st1 hpa
      obtain ⟨⟨d2, hd2⟩, hpres2, h32⟩ := ih st1 h
      refine ⟨⟨d1 ++ d2, by rw [hd2, hd1, List.append_assoc]⟩,
        fun p hp => hpres2 p (hpres1 p hp), ?_⟩
      intro hc ka' hka' L hL
      rw [hd2, hd1, List.append_assoc] at hc
      have hnil := List.append_cancel_left (hc.trans (List.append_nil st.errs).symm)
      have hd10 : d1 = [] := (List.append_eq_nil.mp hnil).1
      have hd20 : d2 = [] := (List.append_eq_nil.mp hnil).2
      have he1 : st1.errs = st.errs := by rw [hd1, hd10, List.append_nil]
      rcases List.mem_cons.mp hka' with hh | hh
      · subst hh
        obtain ⟨_, hcovA⟩ := h31 he1
        exact hpres2 _ (hcovA L hL)
      · exact h32 (by rw [hd2, hd20, List.append_nil]) ka' hh L hL

/-- C6: after the per-image loop for an image succeeds with no error
recorded for it, every layer digest of every association in the image's
group has a present, non-empty blob file at
`<imageTemp>/v2/<Path>/blobs/<digest>` — extracted from the archive or
fetched from the destination registry.  (The hypotheses say the archive
and registry never hold empty blobs.) -/
theorem blob_completeness (env : PubEnv) (hne : nonemptyWrites env)
    (imageName unpackDir : String) (group : List (String × Association))
    (st st' : ImgState)
    (h : processAssocs env imageName unpackDir group group st = Except.ok st')
    (hnoerr : st'.errs = st.errs) :
    ∀ ka ∈ group, ∀ L ∈ ka.2.LayerDigests,
      filePresent st'.fs
        (pathJoin (pathJoin unpackDir (pathJoin "v2" ka.2.Path)) (pathJoin "blobs" L)) :=
  (processAssocs_ok_spec env hne imageName unpackDir group group st st' h).2.2 hnoerr

/-- Witness for C6: under `envC6` the one-image run succeeds with no
errors and the layer blob is present and non-empty in the per-image
layout. -/
theorem blob_completeness_witness :
    filePresent stC6.fs
      (pathJoin (pathJoin "ud" (pathJoin "v2" "p")) (pathJoin "blobs" "sha256:l1")) :=
  blob_completeness envC6
    (by
      constructor
      · intro a p d c hx
        injection hx with h1
        injection h1 with h2
        rw [← h2]
        decide
      · intro ref L c hx
        exact Except.noConfusion hx)
    "img" "ud" groupC6 initImgState stC6 rfl rfl
    ("img", assocC) (by decide) "sha256:l1" (by decide)

/-! ## C9: mapping formation -/

/-- Filtering out one key does not change lookups of another. -/
theorem tmLookup_filter_ne (m : TypedImageMapping) (K k : TypedImage) (h : K ≠ k) :
    tmLookup (m.filter (fun e => e.1 ≠ K)) k = tmLookup m k := by
  induction m with
  | nil => rfl
  | cons e rest ih =>
    by_cases he : e.1 = K
    · have hq : e.1 ≠ k := by rw [he]; exact h
      have hf : (e :: rest).filter (fun x => x.1 ≠ K)
          = rest.filter (fun x => x.1 ≠ K) := by
        simp [List.filter_cons, he]
      rw [hf, ih]
      simp [tmLookup, hq]
    · have hf : (e :: rest).filter (fun x => x.1 ≠ K)
          = e :: rest.filter (fun x => x.1 ≠ K) := by
        simp [List.filter_cons, he]
      rw [hf]
      by_cases heq : e.1 = k
      · simp [tmLookup, heq]
      · simp only [tmLookup, if_neg heq]
        exact ih

/-- Looking up the key just added finds the new destination. -/
theorem tmLookup_tmAdd_self (m : TypedImageMapping) (s d : TypedImageReference)
    (t : ImageType) : tmLookup (tmAdd m s d t) ⟨s, t⟩ = some ⟨d, t⟩ := by
  simp [tmAdd, tmLookup]

/-- Adding one key does not change lookups of another. -/
theorem tmLookup_tmAdd_other (m : TypedImageMapping) (s d : TypedImageReference)
    (t : ImageType) (k : TypedImage) (h : k ≠ ⟨s, t⟩) :
    tmLookup (tmAdd m s d t) k = tmLookup m k := by
  have h' : (⟨s, t⟩ : TypedImage) ≠ k := fun hh => h hh.symm
  simp only [tmAdd, tmLookup, if_neg h']
  exact tmLookup_filter_ne m ⟨s, t⟩ k h'

/-- Entries surviving the not-this-key filter never carry the key. -/
theorem filter_ne_filter_eq_nil (m : TypedImageMapping) (K : TypedImage) :
    (m.filter (fun e => e.1 ≠ K)).filter (fun e => e.1 = K) = [] := by
  rw [List.filter_eq_nil_iff]
  intro e he
  have := List.of_mem_filter he
  simp at this ⊢
  exact this

/-- After adding a key, exactly one entry carries it. -/
theorem countKey_tmAdd_self (m : TypedImageMapping) (s d : TypedImageReference)
    (t : ImageType) : countKey (tmAdd m s d t) ⟨s, t⟩ = 1 := by
  unfold countKey tmAdd
  rw [List.filter_cons, if_pos (by simp), filter_ne_filter_eq_nil]
  rfl

/-- Dropping one key's entries commutes away under another key's
filter. -/
theorem filter_eq_of_filter_ne (m : TypedImageMapping) (k K : TypedImage)
    (h : k ≠ K) :
    (m.filter (fun e => e.1 ≠ K)).filter (fun e => e.1 = k)
      = m.filter (fun e => e.1 = k) := by
  induction m with
  | nil => rfl
  | cons e rest ih =>
    by_cases heK : e.1 = K
    · have hek : ¬ e.1 = k := by rw [heK]; exact fun hh => h hh.symm
      have hf : (e :: rest).filter (fun x => x.1 ≠ K)
          = rest.filter (fun x => x.1 ≠ K) := by
        simp [List.filter_cons, heK]
      rw [hf, ih, List.filter_cons, if_neg (by simp [hek])]
    · have hf : (e :: rest).filter (fun x => x.1 ≠ K)
          = e :: rest.filter (fun x => x.1 ≠ K) := by
        simp [List.filter_cons, heK]
      rw [hf]
      by_cases hek : e.1 = k
      · rw [List.filter_cons, if_pos (by simp [hek]),
          List.filter_cons, if_pos (by simp [hek]), ih]
      · rw [List.filter_cons, if_neg (by simp [hek]),
          List.filter_cons, if_neg (by simp [hek]), ih]

/-- Adding one key does not change another key's entry count. -/
theorem countKey_tmAdd_other (m : TypedImageMapping) (s d : TypedImageReference)
    (t : ImageType) (k : TypedImage) (h : k ≠ ⟨s, t⟩) :
    countKey (tmAdd m s d t) k = countKey m k := by
  unfold countKey tmAdd
  rw [List.filter_cons, if_neg (by simp; exact fun hh => h hh.symm),
    filter_eq_of_filter_ne m k ⟨s, t⟩ h]

/-- Every entry of an extended mapping is the new entry or an old one. -/
theorem mem_tmAdd (m : TypedImageMapping) (s d : TypedImageReference)
    (t : ImageType) (e : TypedImage × TypedImage) (h : e ∈ tmAdd m s d t) :
    e = (⟨s, t⟩, ⟨d, t⟩) ∨ e ∈ m := by
  rcases List.mem_cons.mp h with h1 | h1
  · exact Or.inl h1
  · exact Or.inr (List.mem_of_mem_filter h1)

/-- Mapping formation along the association loop: every new entry in
`allMappings` comes from an association whose name equals the image key;
once the unique top-level association's entry is installed it survives
to the end of the loop; and processing the group containing it installs
it with its exact destination. -/
theorem processAssocs_formation (env : PubEnv) (hne : nonemptyWrites env)
    (imageName unpackDir : String) (group : List (String × Association))
    (A : Association) (l : List (String × Association)) (st st' : ImgState)
    (h : processAssocs env imageName unpackDir group l st = Except.ok st')
    (hdelta : st'.errs = st.errs)
    (huniq : ∀ ka ∈ l, ka.2.Name = imageName → ka.2 = A) :
    (∀ e ∈ st'.allMappings, e ∈ st.allMappings
      ∨ e = (⟨(env.parseRef imageName).1, A.Type'⟩,
             ⟨assocDest env (assocSrc env A), A.Type'⟩))
    ∧ ((∃ k, (k, A) ∈ l) → A.Name = imageName →
        tmLookup st'.allMappings ⟨(env.parseRef imageName).1, A.Type'⟩
            = some ⟨assocDest env (assocSrc env A), A.Type'⟩
          ∧ countKey st'.allMappings ⟨(env.parseRef imageName).1, A.Type'⟩ = 1)
    ∧ ((tmLookup st.allMappings ⟨(env.parseRef imageName).1, A.Type'⟩
            = some ⟨assocDest env (assocSrc env A), A.Type'⟩
          ∧ countKey st.allMappings ⟨(env.parseRef imageName).1, A.Type'⟩ = 1) →
        tmLookup st'.allMappings ⟨(env.parseRef imageName).1, A.Type'⟩
            = some ⟨assocDest env (assocSrc env A), A.Type'⟩
          ∧ countKey st'.allMappings ⟨(env.parseRef imageName).1, A.Type'⟩ = 1) := by
  induction l generalizing st with
  | nil =>
    simp only [processAssocs] at h
    injection h with h1
    subst h1
    exact ⟨fun e he => Or.inl he, fun hk _ => absurd hk (by simp), fun hk => hk⟩
  | cons ka rest ih =>
    simp only [processAssocs] at h
    split at h
    · exact Except.noConfusion h
    · next st1 hpa =>
      obtain ⟨⟨d1, hd1⟩, _, h31⟩ := processAssoc_ok_spec env hne imageName
        unpackDir group st ka.2 st1 hpa
      obtain ⟨⟨d2, hd2⟩, _, _⟩ := processAssocs_ok_spec env hne imageName
        unpackDir group rest st1 st' h
      rw [hd2, hd1, List.append_assoc] at hdelta
      have hnil := List.append_cancel_left
        (hdelta.trans (List.append_nil st.errs).symm)
      have he1 : st1.errs = st.errs := by
        rw [hd1, (List.append_eq_nil.mp hnil).1, List.append_nil]
      have he2 : st'.errs = st1.errs := by
        rw [hd2, (List.append_eq_nil.mp hnil).2, List.append_nil, he1]
      obtain ⟨hmap1, _⟩ := h31 he1
      have huniqr : ∀ ka' ∈ rest, ka'.2.Name = imageName → ka'.2 = A :=
        fun ka' hka' => huniq ka' (by simp [hka'])
      obtain ⟨ihprov, ihinst, ihpres⟩ := ih st1 h he2 huniqr
      by_cases hname : ka.2.Name = imageName
      · have hkaA : ka.2 = A := huniq ka (by simp) hname
        rw [if_pos hname, hkaA] at hmap1
        refine ⟨?_, ?_, ?_⟩
        · intro e he
          rcases ihprov e he with he1' | he1'
          · rw [hmap1] at he1'
            rcases mem_tmAdd _ _ _ _ e he1' with hh | hh
            · exact Or.inr hh
            · exact Or.inl hh
          · exact Or.inr he1'
        · intro _ _
          apply ihpres
          rw [hmap1]
          exact ⟨tmLookup_tmAdd_self _ _ _ _, countKey_tmAdd_self _ _ _ _⟩
        · intro _
          apply ihpres
          rw [hmap1]
          exact ⟨tmLookup_tmAdd_self _ _ _ _, countKey_tmAdd_self _ _ _ _⟩
      · rw [if_neg hname] at hmap1
        refine ⟨?_, ?_, ?_⟩
        · intro e he
          rcases ihprov e he with he1' | he1'
          · rw [hmap1] at he1'
            exact Or.inl he1'
          · exact Or.inr he1'
        · intro ⟨k, hk⟩ hAname
          rcases List.mem_cons.mp hk with hh | hh
          · exfalso
            apply hname
            rw [show ka.2 = A from congrArg Prod.snd hh.symm]
            exact hAname
          · exact ihinst ⟨k, hh⟩ hAname
        · intro hpre
          apply ihpres
          rw [hmap1]
          exact hpre

/-- C9: when the per-image loop records no error for a group whose only
top-level association (name equal to the group key) is A, `allMappings`
gains exactly one entry for the parsed group key: its destination reuses
A's effective source name, tag and id on the parsed mirror reference,
with the namespace prefixed by the user namespace, tagged with A's type;
associations whose name differs from the key contribute no entry. -/
theorem mapping_formation (env : PubEnv) (hne : nonemptyWrites env)
    (imageName unpackDir : String) (group : List (String × Association))
    (st st' : ImgState)
    (h : processAssocs env imageName unpackDir group group st = Except.ok st')
    (hdelta : st'.errs = st.errs)
    (A : Association) (k : String) (hmem : (k, A) ∈ group)
    (hname : A.Name = imageName)
    (huniq : ∀ ka ∈ group, ka.2.Name = imageName → ka.2 = A) :
    tmLookup st'.allMappings ⟨(env.parseRef imageName).1, A.Type'⟩
        = some ⟨assocDest env (assocSrc env A), A.Type'⟩
    ∧ countKey st'.allMappings ⟨(env.parseRef imageName).1, A.Type'⟩ = 1
    ∧ (∀ e ∈ st'.allMappings, e ∈ st.allMappings
        ∨ e = (⟨(env.parseRef imageName).1, A.Type'⟩,
               ⟨assocDest env (assocSrc env A), A.Type'⟩)) := by
  obtain ⟨hprov, hinst, _⟩ := processAssocs_formation env hne imageName unpackDir
    group A group st st' h hdelta huniq
  obtain ⟨hl, hc⟩ := hinst ⟨k, hmem⟩ hname
  exact ⟨hl, hc, hprov⟩

/-- Witness for C9: under `envC6` the group key "img" maps to exactly
one entry whose destination carries the file source's name, the
manifest digest and the user namespace. -/
theorem mapping_formation_witness :
    tmLookup stC6.allMappings
        ⟨(envC6.parseRef "img").1, assocC.Type'⟩
      = some ⟨assocDest envC6 (assocSrc envC6 assocC), assocC.Type'⟩ :=
  (mapping_formation envC6
    (by
      constructor
      · intro a p d c hx
        injection hx with h1
        injection h1 with h2
        rw [← h2]
        decide
      · intro ref L c hx
        exact Except.noConfusion hx)
    "img" "ud" groupC6 initImgState stC6 rfl rfl
    assocC "img" (by decide) (by decide) (by decide)).1

end OcMirror
